import Mathlib

set_option maxHeartbeats 1000000

/-!
Shallow embedding of the reversible spreadsheet-mutation engine of
`ExcelService` (src/unnamed/part_003): operation descriptors, the twelve-kind
handler family, the batch executor with rollback, the bounded undo history,
and the `isValidRange` predicate.

The host document surface (Office.js) is modelled as a pure document state:
a workbook is a list of sheets; a sheet is an unbounded grid of cells
(value, formula, font/fill/border formats, number format) together with its
charts, pivot tables, conditional formats and autofilter.  Values and
formulas are independent per-cell fields (the host's recalculation engine is
out of scope, per the spec); a range-level format read is modelled as the
format of the range's top-left cell.  Inverses, which the source represents
as closures, are modelled as an explicit inductive datatype `UndoOp` with an
interpreter `runInv`, exactly the capture the corresponding closure performs.
-/

/-- Cell values: blank, numeric or string. -/
inductive Val where
  | empty : Val
  | num : Int → Val
  | str : String → Val
deriving DecidableEq

/-- Font format of a cell (the fields touched by `range.format.font`). -/
structure FontFmt where
  bold : Bool
  color : String
deriving DecidableEq

/-- Fill format of a cell. -/
structure FillFmt where
  color : String
deriving DecidableEq

/-- Border format of a cell. -/
structure BorderFmt where
  style : String
deriving DecidableEq

/-- Partial font update carried in a `format` descriptor's options
(`Object.assign` merges only the supplied fields). -/
structure FontPatch where
  bold : Option Bool := none
  color : Option String := none
deriving DecidableEq

/-- Partial fill update. -/
structure FillPatch where
  color : Option String := none
deriving DecidableEq

/-- Partial border update. -/
structure BorderPatch where
  style : Option String := none
deriving DecidableEq

/-- Merge a font patch into a font, field by field, like `Object.assign`. -/
def FontFmt.assign (f : FontFmt) (p : FontPatch) : FontFmt :=
  { bold := p.bold.getD f.bold, color := p.color.getD f.color }

/-- Merge a fill patch into a fill. -/
def FillFmt.assign (f : FillFmt) (p : FillPatch) : FillFmt :=
  { color := p.color.getD f.color }

/-- Merge a border patch into a border. -/
def BorderFmt.assign (f : BorderFmt) (p : BorderPatch) : BorderFmt :=
  { style := p.style.getD f.style }

/-- One spreadsheet cell. -/
structure Cell where
  value : Val
  formula : Option String
  font : FontFmt
  fill : FillFmt
  borders : BorderFmt
  numberFormat : String
deriving DecidableEq

/-- The blank cell that newly inserted regions hold. -/
def blankCell : Cell :=
  { value := .empty, formula := none, font := { bold := false, color := "black" },
    fill := { color := "none" }, borders := { style := "none" },
    numberFormat := "General" }

/-- A chart object; `id` is the host-generated identifier captured by
`createChart` for its inverse. -/
structure Chart where
  id : Nat
  chartType : String
  title : Option String
  position : Option (Int × Int × Int × Int)
deriving DecidableEq

/-- A pivot table object; `id` is the host-generated identifier captured by
`createPivotTable` for its inverse. -/
structure Pivot where
  id : Nat
  name : String
  destination : String
  rowFields : List String
  dataFields : List String
deriving DecidableEq

/-- A rectangular range: `r1 ≤ r2`, `c1 ≤ c2`, all 0-based. -/
structure Rect where
  r1 : Nat
  c1 : Nat
  r2 : Nat
  c2 : Nat
deriving DecidableEq

/-- A conditional-format rule attached to a range. -/
structure CondFmt where
  cfType : String
  fillColor : String
  rule : String
deriving DecidableEq

/-- A worksheet: a name, an unbounded cell grid, and its attached objects. -/
structure Sheet where
  name : String
  cells : Nat → Nat → Cell
  charts : List Chart
  pivots : List Pivot
  condFmts : List (Rect × CondFmt)
  autoFilter : Option (Rect × Option (Nat × String))
  tabColor : Option String

/-- The sheet a fresh workbook tab starts as. -/
def defaultSheet : Sheet :=
  { name := "", cells := fun _ _ => blankCell, charts := [], pivots := [],
    condFmts := [], autoFilter := none, tabColor := none }

/-- The workbook document: its sheets, the active-sheet index, and the
host-side generators for chart and pivot identifiers. -/
structure Doc where
  sheets : List Sheet
  activeIdx : Nat
  nextChartId : Nat
  nextPivotId : Nat

/-- Excel row bound (1048576 rows), 0-based maximum index. -/
def maxRowIdx : Nat := 1048575

/-- Excel column bound (16384 columns), 0-based maximum index. -/
def maxColIdx : Nat := 16383

/-- JavaScript `toUpperCase` on the ASCII range. -/
def jsToUpper (s : String) : String := String.mk (s.data.map Char.toUpper)

/-- Uppercase letter test, as in the source's `[A-Z]` character class. -/
def isUpperAlpha (c : Char) : Bool := 'A' ≤ c && c ≤ 'Z'

/-- Digit test, as in the source's `[0-9]` character class. -/
def isDigitCh (c : Char) : Bool := '0' ≤ c && c ≤ '9'

/-- Numeric value of a column-letter run (`A` = 1, `Z` = 26, `AA` = 27 …). -/
def colMagnitude (cs : List Char) : Nat :=
  cs.foldl (fun acc c => acc * 26 + (c.toNat - 'A'.toNat + 1)) 0

/-- Numeric value of a digit run. -/
def rowMagnitude (cs : List Char) : Nat :=
  cs.foldl (fun acc c => acc * 10 + (c.toNat - '0'.toNat)) 0

/-- Parse a column-letter run to a 0-based column index. -/
def parseColLetters (cs : List Char) : Option Nat :=
  if !cs.isEmpty && cs.all isUpperAlpha then some (colMagnitude cs - 1) else none

/-- Parse a digit run to a 0-based row index (row numbers start at 1). -/
def parseRowDigits (cs : List Char) : Option Nat :=
  if !cs.isEmpty && cs.all isDigitCh && rowMagnitude cs != 0 then
    some (rowMagnitude cs - 1)
  else none

/-- Parse an A1-style cell address to (row, column), both 0-based. -/
def parseCellAddr (cs : List Char) : Option (Nat × Nat) :=
  let letters := cs.takeWhile isUpperAlpha
  let rest := cs.dropWhile isUpperAlpha
  match parseColLetters letters, parseRowDigits rest with
  | some c, some r => some (r, c)
  | _, _ => none

/-- Split a character list at every colon (JavaScript `split(":")`). -/
def splitColons : List Char → List (List Char)
  | [] => [[]]
  | c :: cs =>
    let r := splitColons cs
    if c = ':' then [] :: r
    else
      match r with
      | h :: t => (c :: h) :: t
      | [] => [[c]]

/-- Address resolution performed by the host's `worksheet.getRange`:
a single cell, a cell:cell rectangle, a whole-row range (`3:4`) or a
whole-column range (`A:B`); anything else fails to resolve. -/
def parseRect (target : String) : Option Rect :=
  match splitColons (jsToUpper target).data with
  | [a] => (parseCellAddr a).map fun rc => ⟨rc.1, rc.2, rc.1, rc.2⟩
  | [a, b] =>
    match parseCellAddr a, parseCellAddr b with
    | some rc, some rc' =>
      some ⟨min rc.1 rc'.1, min rc.2 rc'.2, max rc.1 rc'.1, max rc.2 rc'.2⟩
    | _, _ =>
      match parseRowDigits a, parseRowDigits b with
      | some i, some j => some ⟨min i j, 0, max i j, maxColIdx⟩
      | _, _ =>
        match parseColLetters a, parseColLetters b with
        | some i, some j => some ⟨0, min i j, maxRowIdx, max i j⟩
        | _, _ => none
  | _ => none

/-- Height of a rectangle in rows. -/
def Rect.height (r : Rect) : Nat := r.r2 + 1 - r.r1

/-- Width of a rectangle in columns. -/
def Rect.width (r : Rect) : Nat := r.c2 + 1 - r.c1

/-- Membership of a cell position in a rectangle. -/
def Rect.contains (r : Rect) (i j : Nat) : Bool :=
  r.r1 ≤ i && i ≤ r.r2 && r.c1 ≤ j && j ≤ r.c2

/-- Overlap of two rectangles. -/
def rectsOverlap (a b : Rect) : Bool :=
  a.r1 ≤ b.r2 && b.r1 ≤ a.r2 && a.c1 ≤ b.c2 && b.c1 ≤ a.c2

/-- Read a rectangular grid out of a position function. -/
def gridOf (f : Nat → Nat → α) (h w : Nat) : List (List α) :=
  (List.range h).map fun i => (List.range w).map fun j => f i j

/-- The `range.values` read: the value grid of a rectangle. -/
def readValues (s : Sheet) (r : Rect) : List (List Val) :=
  gridOf (fun i j => (s.cells (r.r1 + i) (r.c1 + j)).value) r.height r.width

/-- The `range.formulas` read: the formula grid of a rectangle. -/
def readFormulas (s : Sheet) (r : Rect) : List (List (Option String)) :=
  gridOf (fun i j => (s.cells (r.r1 + i) (r.c1 + j)).formula) r.height r.width

/-- The `range.values` write: positions the grid does not cover keep their
old value; formulas and formats are untouched. -/
def writeValues (s : Sheet) (r : Rect) (g : List (List Val)) : Sheet :=
  { s with cells := fun i j =>
      if r.contains i j then
        let c := s.cells i j
        { c with value := (g.getD (i - r.r1) []).getD (j - r.c1) c.value }
      else s.cells i j }

/-- The `range.formulas` write. -/
def writeFormulas (s : Sheet) (r : Rect) (g : List (List (Option String))) :
    Sheet :=
  { s with cells := fun i j =>
      if r.contains i j then
        let c := s.cells i j
        { c with formula := (g.getD (i - r.r1) []).getD (j - r.c1) c.formula }
      else s.cells i j }

/-- Apply a cell transformation to every cell of a rectangle. -/
def mapRect (s : Sheet) (r : Rect) (f : Cell → Cell) : Sheet :=
  { s with cells := fun i j =>
      if r.contains i j then f (s.cells i j) else s.cells i j }

/-- The `range.insert(InsertShiftDirection.down)` call: within the target's
columns, cells at and below the target shift down by its height and the
target region becomes blank. -/
def insertShiftDown (s : Sheet) (r : Rect) : Sheet :=
  { s with cells := fun i j =>
      if r.c1 ≤ j && j ≤ r.c2 then
        if i < r.r1 then s.cells i j
        else if i ≤ r.r2 then blankCell
        else s.cells (i - r.height) j
      else s.cells i j }

/-- The `range.delete(DeleteShiftDirection.up)` call. -/
def deleteShiftUp (s : Sheet) (r : Rect) : Sheet :=
  { s with cells := fun i j =>
      if r.c1 ≤ j && j ≤ r.c2 && r.r1 ≤ i then s.cells (i + r.height) j
      else s.cells i j }

/-- The `range.insert(InsertShiftDirection.right)` call. -/
def insertShiftRight (s : Sheet) (r : Rect) : Sheet :=
  { s with cells := fun i j =>
      if r.r1 ≤ i && i ≤ r.r2 then
        if j < r.c1 then s.cells i j
        else if j ≤ r.c2 then blankCell
        else s.cells i (j - r.width)
      else s.cells i j }

/-- The `range.delete(DeleteShiftDirection.left)` call. -/
def deleteShiftLeft (s : Sheet) (r : Rect) : Sheet :=
  { s with cells := fun i j =>
      if r.r1 ≤ i && i ≤ r.r2 && r.c1 ≤ j then s.cells i (j + r.width)
      else s.cells i j }

/-- The untyped `value` payload of a descriptor (`value?: any`): a string, a
number, or a 2-D array of cell values. -/
inductive OpVal where
  | str : String → OpVal
  | num : Int → OpVal
  | grid : List (List Val) → OpVal
deriving DecidableEq

/-- The `options` bag of a descriptor, with every field the handlers read. -/
structure Options where
  font : Option FontPatch := none
  fill : Option FillPatch := none
  borders : Option BorderPatch := none
  numberFormat : Option String := none
  typ : Option String := none
  title : Option String := none
  position : Option (Option Int × Option Int × Option Int × Option Int) := none
  fillColor : Option String := none
  rule : Option String := none
  fields : Option (List (Nat × Bool)) := none
  hasHeaders : Option Bool := none
  columnIndex : Option Nat := none
  filterCriteria : Option String := none
  name : Option String := none
  destination : Option String := none
  rowFields : Option (List String) := none
  dataFields : Option (List String) := none
  tabColor : Option String := none
deriving DecidableEq

/-- An operation descriptor (`ExcelOperation` in the source). -/
structure ExcelOperation where
  type : String
  target : String
  value : Option OpVal := none
  options : Options := {}

/-- The failures the document-mutation surface can raise. -/
inductive Err where
  | invalidAddress : String → Err
  | sheetNotFound : String → Err
  | duplicateSheet : String → Err
  | chartNotFound : Nat → Err
  | pivotNotFound : Nat → Err
  | duplicatePivot : String → Err
  | noActive : Err
deriving DecidableEq

/-- Message rendering for console logging of a failure. -/
def errMsg : Err → String
  | .invalidAddress s => "InvalidArgument: " ++ s
  | .sheetNotFound n => "ItemNotFound: sheet " ++ n
  | .duplicateSheet n => "DuplicateName: sheet " ++ n
  | .chartNotFound _ => "ItemNotFound: chart"
  | .pivotNotFound _ => "ItemNotFound: pivot table"
  | .duplicatePivot n => "DuplicateName: pivot table " ++ n
  | .noActive => "GeneralException: no active worksheet"

/-- An inverse, one constructor per closure shape the handlers return; the
constructor arguments are exactly the pre-state each closure captures. -/
inductive UndoOp where
  | restoreValues : String → List (List Val) → UndoOp
  | restoreFormulas : String → List (List (Option String)) → UndoOp
  | restoreFormat : String → FontFmt → FillFmt → BorderFmt → UndoOp
  | deleteUp : String → UndoOp
  | deleteLeft : String → UndoOp
  | insertDownRestore : String → List (List Val) → List (List (Option String)) → UndoOp
  | insertRightRestore : String → List (List Val) → List (List (Option String)) → UndoOp
  | deleteChartById : Nat → UndoOp
  | clearCondFmts : String → UndoOp
  | removeFilter : String → UndoOp
  | deletePivotById : Nat → UndoOp
  | renameBack : String → String → UndoOp
  | deleteSheet : String → UndoOp

/-- The service's mutable fields: the document plus the undo/redo stacks.
An undo entry is a batch's inverse list in reverse application order, run
front to back (the composite closure built in `executeOperations`). -/
structure SvcState where
  doc : Doc
  undoStack : List (List UndoOp)
  redoStack : List (List UndoOp)

/-- `maxUndoSteps` from the source. -/
def maxUndoSteps : Nat := 50

/-- `context.workbook.worksheets.getActiveWorksheet()`. -/
def activeSheet? (d : Doc) : Option Sheet := d.sheets.get? d.activeIdx

/-- Write back the active worksheet after a mutation. -/
def setActive (d : Doc) (s : Sheet) : Doc :=
  { d with sheets := d.sheets.set d.activeIdx s }

/-- JavaScript `x || dflt` on an optional number (0 is falsy). -/
def jsOrI (v : Option Int) (dflt : Int) : Int :=
  match v with
  | some x => if x = 0 then dflt else x
  | none => dflt

/-- JavaScript `x || dflt` on an optional string (the empty string is falsy). -/
def jsOrS (v : Option String) (dflt : String) : String :=
  match v with
  | some s => if s = "" then dflt else s
  | none => dflt

/-- The grid `range.values` receives in `setCellValue`: an array payload is
written as is, anything else as a 1×1 grid (`[[value]]`). -/
def valueGrid : Option OpVal → List (List Val)
  | some (.grid g) => g
  | some (.str s) => [[.str s]]
  | some (.num n) => [[.num n]]
  | none => [[.empty]]

/-- The formula string `setFormula` writes (`value` is typed `string`). -/
def formulaText : Option OpVal → String
  | some (.str s) => s
  | some (.num n) => toString n
  | _ => ""

/-- A string-valued read of the untyped `value` payload. -/
def asString : Option OpVal → String
  | some (.str s) => s
  | some (.num n) => toString n
  | _ => ""

/-- `ExcelService.setCellValue`: snapshot the target's values, overwrite
them, and return the inverse that writes the snapshot back. -/
def setCellValue (target : String) (value : Option OpVal) (options : Options)
    (d : Doc) : Except Err (Doc × UndoOp) :=
  match activeSheet? d with
  | none => .error .noActive
  | some worksheet =>
    match parseRect target with
    | none => .error (.invalidAddress target)
    | some range =>
      let originalValues := readValues worksheet range
      let worksheet' := writeValues worksheet range (valueGrid value)
      .ok (setActive d worksheet', .restoreValues target originalValues)

/-- `ExcelService.setFormula`: snapshot the target's formulas, write the new
formula (a 1×1 grid, as in the source), return the formula-restoring
inverse. -/
def setFormula (target : String) (value : Option OpVal) (options : Options)
    (d : Doc) : Except Err (Doc × UndoOp) :=
  match activeSheet? d with
  | none => .error .noActive
  | some worksheet =>
    match parseRect target with
    | none => .error (.invalidAddress target)
    | some range =>
      let originalFormulas := readFormulas worksheet range
      let worksheet' := writeFormulas worksheet range [[some (formulaText value)]]
      .ok (setActive d worksheet', .restoreFormulas target originalFormulas)

/-- `ExcelService.formatRange`: shallow-copy the range-level font/fill/border
objects (modelled as the top-left cell's formats), merge the supplied option
fields into the range, set `numberFormat` when supplied, and return the
inverse that re-assigns the three captured sub-objects.  Note the capture
does not include `numberFormat`. -/
def applyFontOpt (s : Sheet) (r : Rect) : Option FontPatch → Sheet
  | some p => mapRect s r fun c => { c with font := c.font.assign p }
  | none => s

def applyFillOpt (s : Sheet) (r : Rect) : Option FillPatch → Sheet
  | some p => mapRect s r fun c => { c with fill := c.fill.assign p }
  | none => s

def applyBordersOpt (s : Sheet) (r : Rect) : Option BorderPatch → Sheet
  | some p => mapRect s r fun c => { c with borders := c.borders.assign p }
  | none => s

def applyNumberFormatOpt (s : Sheet) (r : Rect) : Option String → Sheet
  | some nf => mapRect s r fun c => { c with numberFormat := nf }
  | none => s

/-- The sequence of `Object.assign` merges (and the `numberFormat` write)
`formatRange` performs on the live range. -/
def formatApply (worksheet : Sheet) (range : Rect) (options : Options) : Sheet :=
  applyNumberFormatOpt
    (applyBordersOpt
      (applyFillOpt (applyFontOpt worksheet range options.font) range options.fill)
      range options.borders)
    range options.numberFormat

def formatRange (target : String) (options : Options) (d : Doc) :
    Except Err (Doc × UndoOp) :=
  match activeSheet? d with
  | none => .error .noActive
  | some worksheet =>
    match parseRect target with
    | none => .error (.invalidAddress target)
    | some range =>
      let tl := worksheet.cells range.r1 range.c1
      .ok (setActive d (formatApply worksheet range options),
           .restoreFormat target tl.font tl.fill tl.borders)

/-- `ExcelService.insertRows`: insert the target range shifting down; the
`count` parameter is accepted (with default 1) but never used, exactly as in
the source.  The inverse deletes the target range shifting up. -/
def insertRows (target : String) (count : Int) (d : Doc) :
    Except Err (Doc × UndoOp) :=
  match activeSheet? d with
  | none => .error .noActive
  | some worksheet =>
    match parseRect target with
    | none => .error (.invalidAddress target)
    | some range =>
      .ok (setActive d (insertShiftDown worksheet range), .deleteUp target)

/-- `ExcelService.insertColumns`: insert shifting right; `count` unused. -/
def insertColumns (target : String) (count : Int) (d : Doc) :
    Except Err (Doc × UndoOp) :=
  match activeSheet? d with
  | none => .error .noActive
  | some worksheet =>
    match parseRect target with
    | none => .error (.invalidAddress target)
    | some range =>
      .ok (setActive d (insertShiftRight worksheet range), .deleteLeft target)

/-- `ExcelService.deleteRows`: capture the region's values and formulas,
delete shifting up, and return the inverse that re-inserts space shifting
down and restores the captured values and formulas. -/
def deleteRows (target : String) (d : Doc) : Except Err (Doc × UndoOp) :=
  match activeSheet? d with
  | none => .error .noActive
  | some worksheet =>
    match parseRect target with
    | none => .error (.invalidAddress target)
    | some range =>
      let vals := readValues worksheet range
      let fms := readFormulas worksheet range
      .ok (setActive d (deleteShiftUp worksheet range),
           .insertDownRestore target vals fms)

/-- `ExcelService.deleteColumns`: capture values and formulas, delete
shifting left, inverse re-inserts shifting right and restores. -/
def deleteColumns (target : String) (d : Doc) : Except Err (Doc × UndoOp) :=
  match activeSheet? d with
  | none => .error .noActive
  | some worksheet =>
    match parseRect target with
    | none => .error (.invalidAddress target)
    | some range =>
      let vals := readValues worksheet range
      let fms := readFormulas worksheet range
      .ok (setActive d (deleteShiftLeft worksheet range),
           .insertRightRestore target vals fms)

/-- `ExcelService.createChart`: add a chart over the target range, capture
the generated `chart.id`, and return the inverse that deletes by that id. -/
def createChart (target : String) (options : Options) (d : Doc) :
    Except Err (Doc × UndoOp) :=
  match activeSheet? d with
  | none => .error .noActive
  | some worksheet =>
    match parseRect target with
    | none => .error (.invalidAddress target)
    | some _ =>
      let chartType := jsOrS options.typ "ColumnClustered"
      let pos := match options.position with
        | some p => some (jsOrI p.1 100, jsOrI p.2.1 100, jsOrI p.2.2.1 400,
                          jsOrI p.2.2.2 300)
        | none => none
      let chart : Chart :=
        { id := d.nextChartId, chartType := chartType, title := options.title,
          position := pos }
      let worksheet' := { worksheet with charts := worksheet.charts ++ [chart] }
      .ok ({ setActive d worksheet' with nextChartId := d.nextChartId + 1 },
           .deleteChartById d.nextChartId)

/-- `ExcelService.addConditionalFormatting`: attach a rule to the target; the
inverse clears every conditional format on the target range. -/
def addConditionalFormatting (target : String) (options : Options) (d : Doc) :
    Except Err (Doc × UndoOp) :=
  match activeSheet? d with
  | none => .error .noActive
  | some worksheet =>
    match parseRect target with
    | none => .error (.invalidAddress target)
    | some range =>
      match options.typ with
      | none => .error (.invalidAddress "conditional format type")
      | some t =>
        let cf : CondFmt :=
          if t = "cellValue" then
            { cfType := t, fillColor := jsOrS options.fillColor "red",
              rule := (options.rule).getD "" }
          else { cfType := t, fillColor := "", rule := "" }
        let worksheet' :=
          { worksheet with condFmts := worksheet.condFmts ++ [(range, cf)] }
        .ok (setActive d worksheet', .clearCondFmts target)

/-- Row comparison used by the host's sort, lexicographic over the sort
fields (key column, ascending flag). -/
def valRank : Val → Nat
  | .empty => 0
  | .num _ => 1
  | .str _ => 2

/-- A total order test on cell values. -/
def valLe (a b : Val) : Bool :=
  match a, b with
  | .num x, .num y => decide (x ≤ y)
  | .str x, .str y => decide (x ≤ y)
  | _, _ => decide (valRank a ≤ valRank b)

/-- Row ordering induced by a sort-field list. -/
def rowLeBy : List (Nat × Bool) → List Val → List Val → Bool
  | [], _, _ => true
  | f :: fs, a, b =>
    let x := a.getD f.1 .empty
    let y := b.getD f.1 .empty
    if x = y then rowLeBy fs a b
    else if f.2 then valLe x y else valLe y x

/-- Insertion into a sorted list. -/
def insertSorted (le : α → α → Bool) (x : α) : List α → List α
  | [] => [x]
  | y :: ys => if le x y then x :: y :: ys else y :: insertSorted le x ys

/-- Insertion sort. -/
def insertionSort (le : α → α → Bool) (l : List α) : List α :=
  l.foldr (insertSorted le) []

/-- The host's `range.sort.apply`: sort the value rows of the range (keeping
the header row in place when `hasHeaders`). -/
def applySort (fields : List (Nat × Bool)) (hasHeaders : Bool)
    (rows : List (List Val)) : List (List Val) :=
  if hasHeaders then
    match rows with
    | [] => []
    | h :: t => h :: insertionSort (rowLeBy fields) t
  else insertionSort (rowLeBy fields) rows

/-- `ExcelService.sortRange`: snapshot the values, apply the sort, and return
the inverse that writes the snapshot back. -/
def sortRange (target : String) (options : Options) (d : Doc) :
    Except Err (Doc × UndoOp) :=
  match activeSheet? d with
  | none => .error .noActive
  | some worksheet =>
    match parseRect target with
    | none => .error (.invalidAddress target)
    | some range =>
      let originalValues := readValues worksheet range
      let sortFields := (options.fields).getD [(0, true)]
      let hasHeaders := (options.hasHeaders).getD false
      let sorted := applySort sortFields hasHeaders originalValues
      .ok (setActive d (writeValues worksheet range sorted),
           .restoreValues target originalValues)

/-- `ExcelService.applyFilter`: apply an autofilter over the target (with a
column criterion when both options are truthy); the inverse removes the
autofilter. -/
def applyFilter (target : String) (options : Options) (d : Doc) :
    Except Err (Doc × UndoOp) :=
  match activeSheet? d with
  | none => .error .noActive
  | some worksheet =>
    match parseRect target with
    | none => .error (.invalidAddress target)
    | some range =>
      let crit :=
        match options.columnIndex, options.filterCriteria with
        | some ci, some fc => if ci ≠ 0 && fc ≠ "" then some (ci, fc) else none
        | _, _ => none
      let worksheet' := { worksheet with autoFilter := some (range, crit) }
      .ok (setActive d worksheet', .removeFilter target)

/-- `ExcelService.createPivotTable`: add a pivot table named from the options
(default `"ManicePivotTable"`), capture the generated `pivotTable.id`, and
return the inverse that deletes by that id. -/
def createPivotTable (target : String) (options : Options) (d : Doc) :
    Except Err (Doc × UndoOp) :=
  match activeSheet? d with
  | none => .error .noActive
  | some worksheet =>
    match parseRect target with
    | none => .error (.invalidAddress target)
    | some _ =>
      let destination := jsOrS options.destination "H1"
      match parseRect destination with
      | none => .error (.invalidAddress destination)
      | some _ =>
        let pname := jsOrS options.name "ManicePivotTable"
        if worksheet.pivots.any fun p => p.name == pname then
          .error (.duplicatePivot pname)
        else
          let pivot : Pivot :=
            { id := d.nextPivotId, name := pname, destination := destination,
              rowFields := (options.rowFields).getD [],
              dataFields := (options.dataFields).getD [] }
          let worksheet' := { worksheet with pivots := worksheet.pivots ++ [pivot] }
          .ok ({ setActive d worksheet' with nextPivotId := d.nextPivotId + 1 },
               .deletePivotById d.nextPivotId)

/-- Core of `renameSheet` and of its inverse: look the sheet up by name
(`worksheets.getItem`), fail if absent, fail on a duplicate new name, else
rename. -/
def renameSheetCore (currentName newName : String) (d : Doc) :
    Except Err Doc :=
  let i := d.sheets.findIdx fun s => s.name == currentName
  if i < d.sheets.length then
    if (d.sheets.any fun s => s.name == newName) && !(newName == currentName) then
      .error (.duplicateSheet newName)
    else
      .ok { d with sheets :=
              d.sheets.set i { d.sheets.getD i defaultSheet with name := newName } }
  else .error (.sheetNotFound currentName)

/-- `ExcelService.renameSheet`: rename and return the inverse that renames
back using the captured original name. -/
def renameSheet (currentName newName : String) (d : Doc) :
    Except Err (Doc × UndoOp) :=
  (renameSheetCore currentName newName d).map fun d' =>
    (d', .renameBack newName currentName)

/-- `ExcelService.createSheet`: add a sheet (optional tab color); the inverse
deletes the sheet by the captured name. -/
def createSheet (name : String) (options : Options) (d : Doc) :
    Except Err (Doc × UndoOp) :=
  if d.sheets.any fun s => s.name == name then .error (.duplicateSheet name)
  else
    let worksheet := { defaultSheet with name := name, tabColor := options.tabColor }
    .ok ({ d with sheets := d.sheets ++ [worksheet] }, .deleteSheet name)

/-- Interpreter for inverses: each branch is the body of the corresponding
closure in the source, replayed against the current document. -/
def runInv (inv : UndoOp) (d : Doc) : Except Err Doc :=
  match inv with
  | .restoreValues target vals =>
    match activeSheet? d with
    | none => .error .noActive
    | some s =>
      match parseRect target with
      | none => .error (.invalidAddress target)
      | some r => .ok (setActive d (writeValues s r vals))
  | .restoreFormulas target fms =>
    match activeSheet? d with
    | none => .error .noActive
    | some s =>
      match parseRect target with
      | none => .error (.invalidAddress target)
      | some r => .ok (setActive d (writeFormulas s r fms))
  | .restoreFormat target font fill borders =>
    match activeSheet? d with
    | none => .error .noActive
    | some s =>
      match parseRect target with
      | none => .error (.invalidAddress target)
      | some r =>
        .ok (setActive d (mapRect s r fun c =>
          { c with font := font, fill := fill, borders := borders }))
  | .deleteUp target =>
    match activeSheet? d with
    | none => .error .noActive
    | some s =>
      match parseRect target with
      | none => .error (.invalidAddress target)
      | some r => .ok (setActive d (deleteShiftUp s r))
  | .deleteLeft target =>
    match activeSheet? d with
    | none => .error .noActive
    | some s =>
      match parseRect target with
      | none => .error (.invalidAddress target)
      | some r => .ok (setActive d (deleteShiftLeft s r))
  | .insertDownRestore target vals fms =>
    match activeSheet? d with
    | none => .error .noActive
    | some s =>
      match parseRect target with
      | none => .error (.invalidAddress target)
      | some r =>
        .ok (setActive d
          (writeFormulas (writeValues (insertShiftDown s r) r vals) r fms))
  | .insertRightRestore target vals fms =>
    match activeSheet? d with
    | none => .error .noActive
    | some s =>
      match parseRect target with
      | none => .error (.invalidAddress target)
      | some r =>
        .ok (setActive d
          (writeFormulas (writeValues (insertShiftRight s r) r vals) r fms))
  | .deleteChartById cid =>
    match activeSheet? d with
    | none => .error .noActive
    | some s =>
      if s.charts.any fun c => c.id == cid then
        .ok (setActive d { s with charts := s.charts.filter fun c => !(c.id == cid) })
      else .error (.chartNotFound cid)
  | .clearCondFmts target =>
    match activeSheet? d with
    | none => .error .noActive
    | some s =>
      match parseRect target with
      | none => .error (.invalidAddress target)
      | some r =>
        .ok (setActive d
          { s with condFmts := s.condFmts.filter fun rc => !(rectsOverlap rc.1 r) })
  | .removeFilter target =>
    match activeSheet? d with
    | none => .error .noActive
    | some s =>
      match parseRect target with
      | none => .error (.invalidAddress target)
      | some _ => .ok (setActive d { s with autoFilter := none })
  | .deletePivotById pid =>
    match activeSheet? d with
    | none => .error .noActive
    | some s =>
      if s.pivots.any fun p => p.id == pid then
        .ok (setActive d { s with pivots := s.pivots.filter fun p => !(p.id == pid) })
      else .error (.pivotNotFound pid)
  | .renameBack newName currentName => renameSheetCore newName currentName d
  | .deleteSheet name =>
    if d.sheets.any fun s => s.name == name then
      .ok { d with sheets := d.sheets.filter fun s => !(s.name == name) }
    else .error (.sheetNotFound name)

/-- The fourteen `case` labels of the dispatcher's `switch` (the spec's
"twelve kinds" counts the row/column insert pair and the row/column delete
pair once each). -/
def recognizedKinds : List String :=
  ["cell_edit", "formula", "format", "insert_row", "insert_column",
   "delete_row", "delete_column", "chart", "conditional_format", "sort",
   "filter", "pivot_table", "sheet_rename", "sheet_create"]

/-- Membership in the dispatcher's recognized tag set. -/
def recognized (t : String) : Bool := decide (t ∈ recognizedKinds)

/-- `ExcelService.executeOperation`: route a descriptor to its handler by
kind; an unrecognized kind logs `console.warn` and yields no inverse.
Returns the handler result paired with the console output of this step. -/
def executeOperation (operation : ExcelOperation) (d : Doc) :
    Except Err (Doc × Option UndoOp) × List String :=
  if operation.type = "cell_edit" then
    ((setCellValue operation.target operation.value operation.options d).map
      fun p => (p.1, some p.2), [])
  else if operation.type = "formula" then
    ((setFormula operation.target operation.value operation.options d).map
      fun p => (p.1, some p.2), [])
  else if operation.type = "format" then
    ((formatRange operation.target operation.options d).map
      fun p => (p.1, some p.2), [])
  else if operation.type = "insert_row" then
    ((insertRows operation.target (jsOrI (match operation.value with
        | some (.num n) => some n | _ => none) 1) d).map
      fun p => (p.1, some p.2), [])
  else if operation.type = "insert_column" then
    ((insertColumns operation.target (jsOrI (match operation.value with
        | some (.num n) => some n | _ => none) 1) d).map
      fun p => (p.1, some p.2), [])
  else if operation.type = "delete_row" then
    ((deleteRows operation.target d).map fun p => (p.1, some p.2), [])
  else if operation.type = "delete_column" then
    ((deleteColumns operation.target d).map fun p => (p.1, some p.2), [])
  else if operation.type = "chart" then
    ((createChart operation.target operation.options d).map
      fun p => (p.1, some p.2), [])
  else if operation.type = "conditional_format" then
    ((addConditionalFormatting operation.target operation.options d).map
      fun p => (p.1, some p.2), [])
  else if operation.type = "sort" then
    ((sortRange operation.target operation.options d).map
      fun p => (p.1, some p.2), [])
  else if operation.type = "filter" then
    ((applyFilter operation.target operation.options d).map
      fun p => (p.1, some p.2), [])
  else if operation.type = "pivot_table" then
    ((createPivotTable operation.target operation.options d).map
      fun p => (p.1, some p.2), [])
  else if operation.type = "sheet_rename" then
    ((renameSheet operation.target (asString operation.value) d).map
      fun p => (p.1, some p.2), [])
  else if operation.type = "sheet_create" then
    ((createSheet (asString operation.value) operation.options d).map
      fun p => (p.1, some p.2), [])
  else
    (.ok (d, none), ["Unknown operation type: " ++ operation.type])

/-- The `for (const operation of operations)` loop of `executeOperations`:
run each descriptor, prepending each returned inverse (`unshift`), and stop
at the first failure.  Returns the collected inverses, the console log, the
document reached, and the failure if any. -/
def executeOperationsAux :
    List ExcelOperation → Doc → List UndoOp → List String →
    List UndoOp × List String × Doc × Option Err
  | [], d, undoOperations, log => (undoOperations, log, d, none)
  | operation :: rest, d, undoOperations, log =>
    match executeOperation operation d with
    | (.ok (d', invOpt), l) =>
      let undoOperations' := match invOpt with
        | some undoOp => undoOp :: undoOperations
        | none => undoOperations
      executeOperationsAux rest d' undoOperations' (log ++ l)
    | (.error e, l) => (undoOperations, log ++ l, d, some e)

/-- The composite undo closure: run the entry's inverses front to back,
propagating the first failure (no per-inverse `try`/`catch` here). -/
def runEntry : List UndoOp → Doc → Doc × Option Err
  | [], d => (d, none)
  | undoOp :: rest, d =>
    match runInv undoOp d with
    | .ok d' => runEntry rest d'
    | .error e => (d, some e)

/-- The `catch` block's rollback loop: each inverse runs inside its own
`try`/`catch`; a failure is logged (`console.error`) and skipped. -/
def rollback : List UndoOp → Doc → Doc × List String
  | [], d => (d, [])
  | undoOp :: rest, d =>
    match runInv undoOp d with
    | .ok d' => rollback rest d'
    | .error e =>
      let p := rollback rest d
      (p.1, ("Failed to undo operation: " ++ errMsg e) :: p.2)

/-- `ExcelService.addToUndoStack`: push, evict the oldest entry when over
capacity (`shift`), clear the redo stack. -/
def addToUndoStack (st : SvcState) (undoOperation : List UndoOp) : SvcState :=
  let s := st.undoStack ++ [undoOperation]
  let s' := if s.length > maxUndoSteps then s.drop 1 else s
  { st with undoStack := s', redoStack := [] }

/-- `ExcelService.executeOperations`: run the batch; on full success push the
composite inverse (only when at least one inverse was collected); on failure
roll back best-effort and re-throw the original error.  Returns the new
service state, the console log, and the outcome. -/
def executeOperations (st : SvcState) (operations : List ExcelOperation) :
    SvcState × List String × Except Err Unit :=
  match executeOperationsAux operations st.doc [] [] with
  | (undoOperations, log, d', none) =>
    let st' := { st with doc := d' }
    let st'' := if undoOperations.length > 0 then addToUndoStack st' undoOperations
                else st'
    (st'', log, .ok ())
  | (undoOperations, log, d', some e) =>
    let p := rollback undoOperations d'
    ({ st with doc := p.1 },
     log ++ ["Failed to execute operations: " ++ errMsg e] ++ p.2,
     .error e)

/-- `ExcelService.undo`: pop the newest entry (a no-op on an empty history)
and execute it; the redo stack is not populated, as in the source. -/
def undo (st : SvcState) : SvcState × Option Err :=
  match st.undoStack.getLast? with
  | some undoOperation =>
    let p := runEntry undoOperation st.doc
    ({ st with doc := p.1, undoStack := st.undoStack.dropLast }, p.2)
  | none => (st, none)

/-- The error raised by the first failing step of a batch, if any. -/
def firstFailure : List ExcelOperation → Doc → Option Err
  | [], _ => none
  | operation :: rest, d =>
    match executeOperation operation d with
    | (.ok (d', _), _) => firstFailure rest d'
    | (.error e, _) => some e

/-- `ExcelService.isValidRange`'s regex, `^[A-Z]+[0-9]+(:([A-Z]+[0-9]+)?)?$`,
as a direct matcher over the character list. -/
def matchCellChars (cs : List Char) : Option (List Char) :=
  match cs with
  | c :: rest =>
    if isUpperAlpha c then
      match rest.dropWhile isUpperAlpha with
      | c' :: rest' =>
        if isDigitCh c' then some (rest'.dropWhile isDigitCh) else none
      | [] => none
    else none
  | [] => none

/-- Whole-pattern match for the source's range regex. -/
def rangeRegexMatch (cs : List Char) : Bool :=
  match matchCellChars cs with
  | none => false
  | some rest =>
    match rest with
    | [] => true
    | r :: rest' =>
      if r = ':' then
        match rest' with
        | [] => true
        | _ :: _ =>
          match matchCellChars rest' with
          | some [] => true
          | _ => false
      else false

/-- `ExcelService.isValidRange`: uppercase the address and test it against
the range pattern; total, never throws. -/
def isValidRange (rangeAddress : String) : Bool :=
  rangeRegexMatch (jsToUpper rangeAddress).data

/-- Document well-formedness: sheet names are distinct and every existing
chart/pivot identifier is below the host's generator, so a freshly generated
identifier never collides. -/
def WF (d : Doc) : Prop :=
  ((d.sheets.map fun s => s.name).Nodup) ∧
  (∀ s ∈ d.sheets,
    (∀ c ∈ s.charts, c.id < d.nextChartId) ∧
    (∀ p ∈ s.pivots, p.id < d.nextPivotId))

instance (d : Doc) : Decidable (WF d) := by
  unfold WF; infer_instance

/-- The observable content of a cell for round-trip statements: its value and
formula (formats are handled separately; see the C1/C2 analyses). -/
def cellObs (c : Cell) : Val × Option String := (c.value, c.formula)

/-- Observational equivalence of worksheets: same name, same value/formula at
every position, same charts and pivot tables. -/
structure SheetEquiv (a b : Sheet) : Prop where
  name_eq : a.name = b.name
  cells_eq : ∀ i j, cellObs (a.cells i j) = cellObs (b.cells i j)
  charts_eq : a.charts = b.charts
  pivots_eq : a.pivots = b.pivots

/-- Observational equivalence of documents. -/
def DocEquiv (a b : Doc) : Prop :=
  List.Forall₂ SheetEquiv a.sheets b.sheets ∧ a.activeIdx = b.activeIdx

/-- The cell of the active worksheet at a position (used by the concrete
evaluations below). -/
def cellAt (d : Doc) (i j : Nat) : Cell :=
  (d.sheets.getD d.activeIdx defaultSheet).cells i j

/-- Control-flow skeleton of `executeOperations` (the `for` loop, the
`unshift` of inverses, and the `catch` rollback of lines 116-148) with the
per-operation handler abstracted into `step` and with inverses as fallible
actions, reflecting that every call against the remote document surface may
be rejected.  Returns the state reached, the collected inverses (reverse
application order) and the first failure, if any. -/
def execBatchAbs {σ ε α : Type}
    (step : α → σ → Except ε (σ × Option (σ → Except ε σ))) :
    List α → σ → List (σ → Except ε σ) →
    σ × List (σ → Except ε σ) × Option ε
  | [], s, acc => (s, acc, none)
  | op :: rest, s, acc =>
    match step op s with
    | .ok (s', some undoOp) => execBatchAbs step rest s' (undoOp :: acc)
    | .ok (s', none) => execBatchAbs step rest s' acc
    | .error e => (s, acc, some e)

/-- The `catch` block's rollback loop over abstract inverses: each inverse
runs in its own `try`/`catch`; a failure is recorded and skipped. -/
def rollbackAbs {σ ε : Type} : List (σ → Except ε σ) → σ → σ × List ε
  | [], s => (s, [])
  | undoOp :: rest, s =>
    match undoOp s with
    | .ok s' => rollbackAbs rest s'
    | .error e =>
      let p := rollbackAbs rest s
      (p.1, e :: p.2)

/-- Abstract `executeOperations`: on failure, roll back best-effort and
re-throw the original error; secondary rollback failures go to the console
log (the middle component), not into the surfaced error. -/
def executeOperationsAbs {σ ε α : Type}
    (step : α → σ → Except ε (σ × Option (σ → Except ε σ)))
    (ops : List α) (s : σ) : σ × List ε × Except ε Unit :=
  match execBatchAbs step ops s [] with
  | (s', _, none) => (s', [], .ok ())
  | (s', acc, some e) =>
    let p := rollbackAbs acc s'
    (p.1, p.2, .error e)

/-- A handler behavior whose second step rejects and whose collected inverse
itself rejects during rollback (the document surface refusing the
compensating write). -/
def stepA : Nat → Nat → Except String (Nat × Option (Nat → Except String Nat)) :=
  fun op s =>
    if op = 1 then .ok (s + 1, some fun _ => .error "rollback failed: A")
    else .error "original error"

/-- Identical to `stepA` except for the secondary rollback error text. -/
def stepB : Nat → Nat → Except String (Nat × Option (Nat → Except String Nat)) :=
  fun op s =>
    if op = 1 then .ok (s + 1, some fun _ => .error "rollback failed: B")
    else .error "original error"

/-- Demonstration worksheet: `A1` holds the number 7, everything else is
blank with the default (`General`) number format. -/
def demoSheet : Sheet :=
  { defaultSheet with
    name := "Sheet1"
    cells := fun i j =>
      if i == 0 && j == 0 then { blankCell with value := .num 7 } else blankCell }

/-- Demonstration workbook with the single sheet `demoSheet`. -/
def demoDoc : Doc :=
  { sheets := [demoSheet], activeIdx := 0, nextChartId := 1, nextPivotId := 1 }

/-- Demonstration service state with empty undo and redo histories. -/
def demoSt : SvcState := { doc := demoDoc, undoStack := [], redoStack := [] }

/-- A one-descriptor batch writing 5 into `A1`. -/
def w1Ops : List ExcelOperation :=
  [{ type := "cell_edit", target := "A1", value := some (.num 5) }]

/-- A one-descriptor batch setting only the `numberFormat` of `A1`. -/
def nfOps : List ExcelOperation :=
  [{ type := "format", target := "A1", options := { numberFormat := some "0.00" } }]

/-- A batch whose third step fails: set `A1`'s number format, write 5 into
`A1`, then address an unresolvable target. -/
def pfOps : List ExcelOperation :=
  [{ type := "format", target := "A1", options := { numberFormat := some "0.00" } },
   { type := "cell_edit", target := "A1", value := some (.num 5) },
   { type := "cell_edit", target := "oops!", value := some (.num 1) }]

/-- Worksheet for the insert-count analysis: `A3` (row index 2) holds 42. -/
def c6sheet : Sheet :=
  { defaultSheet with
    name := "Sheet1"
    cells := fun i j =>
      if i == 2 && j == 0 then { blankCell with value := .num 42 } else blankCell }

/-- Workbook for the insert-count analysis. -/
def c6doc : Doc :=
  { sheets := [c6sheet], activeIdx := 0, nextChartId := 1, nextPivotId := 1 }

/-- The failing input of the insert-count analysis: `insert_row` over the
one-row range `A3:B3` with `value` 2. -/
def c6op : ExcelOperation :=
  { type := "insert_row", target := "A3:B3", value := some (.num 2) }

/-- The document after executing `c6op`. -/
def c6after : Doc :=
  match executeOperation c6op c6doc with
  | (.ok (d', _), _) => d'
  | _ => c6doc

/-- The document `deleteRows` on `A1:B2` of the demo workbook reaches. -/
def c7doc' : Doc :=
  match deleteRows "A1:B2" demoDoc with
  | .ok p => p.1
  | .error _ => demoDoc

/-- The inverse `deleteRows` on `A1:B2` of the demo workbook returns. -/
def c7inv : UndoOp :=
  match deleteRows "A1:B2" demoDoc with
  | .ok p => p.2
  | .error _ => .deleteUp "A1:B2"

/-- The document `createChart` on `A1:B2` of the demo workbook reaches. -/
def c8doc' : Doc :=
  match createChart "A1:B2" {} demoDoc with
  | .ok p => p.1
  | .error _ => demoDoc

/-- The inverse `createChart` on `A1:B2` of the demo workbook returns. -/
def c8inv : UndoOp :=
  match createChart "A1:B2" {} demoDoc with
  | .ok p => p.2
  | .error _ => .deleteChartById 1

/-- A service state whose undo history is exactly at capacity. -/
def c4St : SvcState :=
  { doc := demoDoc, undoStack := List.replicate 50 [], redoStack := [] }

/-- A fresh entry to push onto the full history. -/
def c4Entry : List UndoOp := [UndoOp.removeFilter "A1"]

/-- A descriptor with an unrecognized kind. -/
def op5 : ExcelOperation := { type := "merge_cells", target := "A1" }

/-- Descriptors following the unrecognized one in the C5 evaluation. -/
def rest5 : List ExcelOperation :=
  [{ type := "cell_edit", target := "A1", value := some (.num 1) }]

/-- A batch consisting only of unrecognized kinds. -/
def ops9 : List ExcelOperation :=
  [{ type := "merge_cells", target := "A1" },
   { type := "unmerge_cells", target := "B2" }]

/-- The inverse list `execBatchAbs stepA [1, 2] 0 []` collects. -/
def abs3Acc : List (Nat → Except String Nat) :=
  [fun _ => .error "rollback failed: A"]

theorem sheetEquiv_refl (a : Sheet) : SheetEquiv a a :=
  ⟨rfl, fun _ _ => rfl, rfl, rfl⟩

theorem sheetEquiv_symm {a b : Sheet} (h : SheetEquiv a b) : SheetEquiv b a :=
  ⟨h.name_eq.symm, fun i j => (h.cells_eq i j).symm, h.charts_eq.symm,
   h.pivots_eq.symm⟩

theorem sheetEquiv_trans {a b c : Sheet} (h : SheetEquiv a b)
    (h' : SheetEquiv b c) : SheetEquiv a c :=
  ⟨h.name_eq.trans h'.name_eq, fun i j => (h.cells_eq i j).trans (h'.cells_eq i j),
   h.charts_eq.trans h'.charts_eq, h.pivots_eq.trans h'.pivots_eq⟩

theorem forall₂_sheet_refl : ∀ l : List Sheet, List.Forall₂ SheetEquiv l l
  | [] => List.Forall₂.nil
  | s :: t => List.Forall₂.cons (sheetEquiv_refl s) (forall₂_sheet_refl t)

theorem forall₂_sheet_symm : ∀ {l m : List Sheet},
    List.Forall₂ SheetEquiv l m → List.Forall₂ SheetEquiv m l
  | _, _, List.Forall₂.nil => List.Forall₂.nil
  | _, _, List.Forall₂.cons h t =>
    List.Forall₂.cons (sheetEquiv_symm h) (forall₂_sheet_symm t)

theorem forall₂_sheet_trans : ∀ {l m n : List Sheet},
    List.Forall₂ SheetEquiv l m → List.Forall₂ SheetEquiv m n →
    List.Forall₂ SheetEquiv l n
  | _, _, _, List.Forall₂.nil, List.Forall₂.nil => List.Forall₂.nil
  | _, _, _, List.Forall₂.cons h t, List.Forall₂.cons h' t' =>
    List.Forall₂.cons (sheetEquiv_trans h h') (forall₂_sheet_trans t t')

theorem docEquiv_refl (a : Doc) : DocEquiv a a :=
  ⟨forall₂_sheet_refl a.sheets, rfl⟩

theorem docEquiv_symm {a b : Doc} (h : DocEquiv a b) : DocEquiv b a :=
  ⟨forall₂_sheet_symm h.1, h.2.symm⟩

theorem docEquiv_trans {a b c : Doc} (h : DocEquiv a b) (h' : DocEquiv b c) :
    DocEquiv a c :=
  ⟨forall₂_sheet_trans h.1 h'.1, h.2.trans h'.2⟩

theorem forall₂_get?_right {R : α → β → Prop} :
    ∀ {l : List α} {m : List β}, List.Forall₂ R l m → ∀ {k : Nat} {b : β},
      m.get? k = some b → ∃ a, l.get? k = some a ∧ R a b := by
  intro l m h
  induction h with
  | nil => intro k b hb; simp at hb
  | cons hx ht ih =>
    intro k b hb
    cases k with
    | zero =>
      simp only [List.get?] at hb ⊢
      cases hb
      exact ⟨_, rfl, hx⟩
    | succ k' =>
      simp only [List.get?] at hb ⊢
      exact ih hb

theorem forall₂_set_cancel {R : α → β → Prop} :
    ∀ {l : List α} {m : List β} {k : Nat} {b c : β} {a : α},
      List.Forall₂ R l (m.set k b) → m.get? k = some c → R a c →
      List.Forall₂ R (l.set k a) m := by
  intro l
  induction l with
  | nil =>
    intro m k b c a h hm hac
    cases m with
    | nil => exact List.Forall₂.nil
    | cons y ys => cases k <;> simp [List.set] at h
  | cons x xs ih =>
    intro m k b c a h hm hac
    cases m with
    | nil => simp [List.set] at h
    | cons y ys =>
      cases k with
      | zero =>
        simp only [List.set] at h ⊢
        cases h with
        | cons hx ht =>
          simp only [List.get?, Option.some.injEq] at hm
          exact List.Forall₂.cons (hm ▸ hac) ht
      | succ k' =>
        simp only [List.set] at h ⊢
        cases h with
        | cons hx ht =>
          simp only [List.get?] at hm
          exact List.Forall₂.cons hx (ih ht hm hac)

/-- Look up the active worksheet of an equivalent document. -/
theorem activeSheet?_equiv {e d : Doc} {s : Sheet} (h : DocEquiv e d)
    (hs : activeSheet? d = some s) :
    ∃ t, activeSheet? e = some t ∧ SheetEquiv t s := by
  obtain ⟨hf, hidx⟩ := h
  rw [activeSheet?] at hs ⊢
  rw [hidx]
  exact forall₂_get?_right hf hs

/-- Writing an equivalent sheet back over a document equivalent to a
one-sheet update yields a document equivalent to the original. -/
theorem setActive_restore {d e : Doc} {s s₁ t' : Sheet}
    (hs : activeSheet? d = some s)
    (he : DocEquiv e (setActive d s₁))
    (ht' : SheetEquiv t' s) :
    DocEquiv (setActive e t') d := by
  obtain ⟨hf, hidx⟩ := he
  simp only [setActive] at hf hidx
  refine ⟨?_, ?_⟩
  · simp only [setActive]
    rw [hidx]
    exact forall₂_set_cancel hf hs ht'
  · simpa [setActive] using hidx

theorem map_range_getD (g : Nat → α) (n i : Nat) (dflt : α) (hi : i < n) :
    ((List.range n).map g).getD i dflt = g i := by
  simp [List.getD_eq_getElem?_getD, List.getElem?_map, List.getElem?_range hi]

/-- Grid lookup: reading back position `(i, j)` of a captured grid. -/
theorem gridOf_getD (f : Nat → Nat → α) (h w i j : Nat) (dI : List α)
    (dflt : α) (hi : i < h) (hj : j < w) :
    ((gridOf f h w).getD i dI).getD j dflt = f i j := by
  rw [gridOf, map_range_getD _ _ _ _ hi, map_range_getD _ _ _ _ hj]

theorem contains_iff {r : Rect} {i j : Nat} :
    r.contains i j = true ↔ r.r1 ≤ i ∧ i ≤ r.r2 ∧ r.c1 ≤ j ∧ j ≤ r.c2 := by
  simp [Rect.contains, and_assoc]

/-- Reading back the captured value of an in-range position. -/
theorem readValues_getD {s : Sheet} {r : Rect} {i j : Nat} (v0 : Val)
    (hij : r.contains i j = true) :
    ((readValues s r).getD (i - r.r1) []).getD (j - r.c1) v0 =
      (s.cells i j).value := by
  obtain ⟨h1, h2, h3, h4⟩ := contains_iff.mp hij
  rw [readValues, gridOf_getD]
  · congr 2 <;> omega
  · simp only [Rect.height]; omega
  · simp only [Rect.width]; omega

/-- Reading back the captured formula of an in-range position. -/
theorem readFormulas_getD {s : Sheet} {r : Rect} {i j : Nat}
    (f0 : Option String) (hij : r.contains i j = true) :
    ((readFormulas s r).getD (i - r.r1) []).getD (j - r.c1) f0 =
      (s.cells i j).formula := by
  obtain ⟨h1, h2, h3, h4⟩ := contains_iff.mp hij
  rw [readFormulas, gridOf_getD]
  · congr 2 <;> omega
  · simp only [Rect.height]; omega
  · simp only [Rect.width]; omega

theorem activeSheet?_setActive {d : Doc} {s s₁ : Sheet}
    (hs : activeSheet? d = some s) :
    activeSheet? (setActive d s₁) = some s₁ := by
  have hlt : d.activeIdx < d.sheets.length := by
    by_contra hge
    rw [activeSheet?, List.get?_eq_none.mpr (Nat.le_of_not_lt hge)] at hs
    cases hs
  simp only [activeSheet?, setActive]
  rw [List.get?_set_eq_of_lt _ hlt]

/-- Restoring a captured value grid undoes any value write on that range. -/
theorem writeValues_restore {s t : Sheet} {r : Rect} {g : List (List Val)}
    (ht : SheetEquiv t (writeValues s r g)) :
    SheetEquiv (writeValues t r (readValues s r)) s := by
  refine ⟨ht.name_eq, ?_, ht.charts_eq, ht.pivots_eq⟩
  intro i j
  have hc := ht.cells_eq i j
  simp only [writeValues] at hc ⊢
  by_cases h : r.contains i j = true
  · rw [if_pos h] at hc ⊢
    simp only [cellObs, Prod.mk.injEq] at hc ⊢
    exact ⟨readValues_getD _ h, hc.2⟩
  · rw [if_neg h] at hc ⊢
    exact hc

/-- Restoring a captured formula grid undoes any formula write on that
range. -/
theorem writeFormulas_restore {s t : Sheet} {r : Rect}
    {g : List (List (Option String))}
    (ht : SheetEquiv t (writeFormulas s r g)) :
    SheetEquiv (writeFormulas t r (readFormulas s r)) s := by
  refine ⟨ht.name_eq, ?_, ht.charts_eq, ht.pivots_eq⟩
  intro i j
  have hc := ht.cells_eq i j
  simp only [writeFormulas] at hc ⊢
  by_cases h : r.contains i j = true
  · rw [if_pos h] at hc ⊢
    simp only [cellObs, Prod.mk.injEq] at hc ⊢
    exact ⟨hc.1, readFormulas_getD _ h⟩
  · rw [if_neg h] at hc ⊢
    exact hc

/-- A format-only cell map does not change observable content. -/
theorem mapRect_obs {s : Sheet} {r : Rect} {f : Cell → Cell}
    (hf : ∀ c, cellObs (f c) = cellObs c) : SheetEquiv (mapRect s r f) s := by
  refine ⟨rfl, ?_, rfl, rfl⟩
  intro i j
  simp only [mapRect]
  by_cases h : r.contains i j = true
  · rw [if_pos h]; exact hf _
  · rw [if_neg h]

/-- Ranges resolved by `parseRect` are normalized: `r1 ≤ r2` and `c1 ≤ c2`. -/
theorem parseRect_norm {target : String} {r : Rect}
    (h : parseRect target = some r) : r.r1 ≤ r.r2 ∧ r.c1 ≤ r.c2 := by
  unfold parseRect at h
  split at h
  · cases hp : parseCellAddr _ with
    | none => rw [hp] at h; cases h
    | some rc => rw [hp] at h; cases h; exact ⟨Nat.le_refl _, Nat.le_refl _⟩
  · split at h
    · cases h; constructor <;> simp
    · split at h
      · cases h; constructor <;> simp [maxColIdx]
      · split at h
        · cases h; constructor <;> simp [maxRowIdx]
        · cases h
  · cases h

/-- Deleting (shift up) the freshly inserted (shift down) region restores
the sheet's observable content. -/
theorem insert_down_restore {s t : Sheet} {r : Rect}
    (ht : SheetEquiv t (insertShiftDown s r)) :
    SheetEquiv (deleteShiftUp t r) s := by
  refine ⟨ht.name_eq, ?_, ht.charts_eq, ht.pivots_eq⟩
  intro i j
  have hc₁ := ht.cells_eq (i + r.height) j
  have hc₂ := ht.cells_eq i j
  simp only [insertShiftDown, deleteShiftUp, Rect.height] at hc₁ hc₂ ⊢
  by_cases hj : r.c1 ≤ j ∧ j ≤ r.c2
  · by_cases hi : r.r1 ≤ i
    · rw [if_pos (by simp [hj.1, hj.2, hi])]
      rw [if_pos (by simp [hj.1, hj.2])] at hc₁
      rw [if_neg (by omega), if_neg (by omega)] at hc₁
      have harith : i + (r.r2 + 1 - r.r1) - (r.r2 + 1 - r.r1) = i := by omega
      rw [harith] at hc₁
      exact hc₁
    · rw [if_neg (by simp; omega)]
      rw [if_pos (by simp [hj.1, hj.2]), if_pos (by omega)] at hc₂
      exact hc₂
  · rw [if_neg (by simp; omega)]
    rw [if_neg (by simp; omega)] at hc₂
    exact hc₂

/-- Deleting (shift left) the freshly inserted (shift right) region restores
the sheet's observable content. -/
theorem insert_right_restore {s t : Sheet} {r : Rect}
    (ht : SheetEquiv t (insertShiftRight s r)) :
    SheetEquiv (deleteShiftLeft t r) s := by
  refine ⟨ht.name_eq, ?_, ht.charts_eq, ht.pivots_eq⟩
  intro i j
  have hc₁ := ht.cells_eq i (j + r.width)
  have hc₂ := ht.cells_eq i j
  simp only [insertShiftRight, deleteShiftLeft, Rect.width] at hc₁ hc₂ ⊢
  by_cases hi : r.r1 ≤ i ∧ i ≤ r.r2
  · by_cases hj : r.c1 ≤ j
    · rw [if_pos (by simp [hi.1, hi.2, hj])]
      rw [if_pos (by simp [hi.1, hi.2])] at hc₁
      rw [if_neg (by omega), if_neg (by omega)] at hc₁
      have harith : j + (r.c2 + 1 - r.c1) - (r.c2 + 1 - r.c1) = j := by omega
      rw [harith] at hc₁
      exact hc₁
    · rw [if_neg (by simp; omega)]
      rw [if_pos (by simp [hi.1, hi.2]), if_pos (by omega)] at hc₂
      exact hc₂
  · rw [if_neg (by simp; omega)]
    rw [if_neg (by simp; omega)] at hc₂
    exact hc₂

/-- Re-inserting space and writing the captured values and formulas back
restores the observable content destroyed by a delete (shift up). -/
theorem delete_up_restore {s t : Sheet} {r : Rect}
    (hr1 : r.r1 ≤ r.r2)
    (ht : SheetEquiv t (deleteShiftUp s r)) :
    SheetEquiv
      (writeFormulas (writeValues (insertShiftDown t r) r (readValues s r)) r
        (readFormulas s r)) s := by
  refine ⟨ht.name_eq, ?_, ht.charts_eq, ht.pivots_eq⟩
  intro i j
  by_cases hin : r.contains i j = true
  · simp only [writeFormulas, writeValues]
    rw [if_pos hin, if_pos hin]
    simp only [cellObs, Prod.mk.injEq]
    exact ⟨readValues_getD _ hin, readFormulas_getD _ hin⟩
  · simp only [writeFormulas, writeValues]
    rw [if_neg hin, if_neg hin]
    by_cases hj : r.c1 ≤ j ∧ j ≤ r.c2
    · by_cases hlow : r.r2 < i
      · have hc := ht.cells_eq (i - r.height) j
        simp only [insertShiftDown, deleteShiftUp, Rect.height] at hc ⊢
        rw [if_pos (by simp [hj.1, hj.2]), if_neg (by omega), if_neg (by omega)]
        rw [if_pos (by simp only [Bool.and_eq_true, decide_eq_true_eq]; omega)] at hc
        have harith : i - (r.r2 + 1 - r.r1) + (r.r2 + 1 - r.r1) = i := by omega
        rw [harith] at hc
        exact hc
      · have hile : i ≤ r.r2 := Nat.le_of_not_lt hlow
        have hi : i < r.r1 := by
          rcases Nat.lt_or_ge i r.r1 with hlt | hge
          · exact hlt
          · exact absurd (contains_iff.mpr ⟨hge, hile, hj.1, hj.2⟩) hin
        have hc := ht.cells_eq i j
        simp only [insertShiftDown, deleteShiftUp, Rect.height] at hc ⊢
        rw [if_pos (by simp [hj.1, hj.2]), if_pos hi]
        rw [if_neg (by simp only [Bool.and_eq_true, decide_eq_true_eq]; omega)] at hc
        exact hc
    · have hc := ht.cells_eq i j
      simp only [insertShiftDown, deleteShiftUp, Rect.height] at hc ⊢
      rw [if_neg (by simp; omega)]
      rw [if_neg (by simp only [Bool.and_eq_true, decide_eq_true_eq]; omega)] at hc
      exact hc

/-- Re-inserting space and writing the captured values and formulas back
restores the observable content destroyed by a delete (shift left). -/
theorem delete_left_restore {s t : Sheet} {r : Rect}
    (hc1 : r.c1 ≤ r.c2)
    (ht : SheetEquiv t (deleteShiftLeft s r)) :
    SheetEquiv
      (writeFormulas (writeValues (insertShiftRight t r) r (readValues s r)) r
        (readFormulas s r)) s := by
  refine ⟨ht.name_eq, ?_, ht.charts_eq, ht.pivots_eq⟩
  intro i j
  by_cases hin : r.contains i j = true
  · simp only [writeFormulas, writeValues]
    rw [if_pos hin, if_pos hin]
    simp only [cellObs, Prod.mk.injEq]
    exact ⟨readValues_getD _ hin, readFormulas_getD _ hin⟩
  · simp only [writeFormulas, writeValues]
    rw [if_neg hin, if_neg hin]
    by_cases hi : r.r1 ≤ i ∧ i ≤ r.r2
    · by_cases hlow : r.c2 < j
      · have hc := ht.cells_eq i (j - r.width)
        simp only [insertShiftRight, deleteShiftLeft, Rect.width] at hc ⊢
        rw [if_pos (by simp [hi.1, hi.2]), if_neg (by omega), if_neg (by omega)]
        rw [if_pos (by simp only [Bool.and_eq_true, decide_eq_true_eq]; omega)] at hc
        have harith : j - (r.c2 + 1 - r.c1) + (r.c2 + 1 - r.c1) = j := by omega
        rw [harith] at hc
        exact hc
      · have hjle : j ≤ r.c2 := Nat.le_of_not_lt hlow
        have hj : j < r.c1 := by
          rcases Nat.lt_or_ge j r.c1 with hlt | hge
          · exact hlt
          · exact absurd (contains_iff.mpr ⟨hi.1, hi.2, hge, hjle⟩) hin
        have hc := ht.cells_eq i j
        simp only [insertShiftRight, deleteShiftLeft, Rect.width] at hc ⊢
        rw [if_pos (by simp [hi.1, hi.2]), if_pos hj]
        rw [if_neg (by simp only [Bool.and_eq_true, decide_eq_true_eq]; omega)] at hc
        exact hc
    · have hc := ht.cells_eq i j
      simp only [insertShiftRight, deleteShiftLeft, Rect.width] at hc ⊢
      rw [if_neg (by simp; omega)]
      rw [if_neg (by simp only [Bool.and_eq_true, decide_eq_true_eq]; omega)] at hc
      exact hc

/-- Format-only range maps leave observable content unchanged. -/
theorem formatApply_obs (worksheet : Sheet) (range : Rect) (options : Options) :
    SheetEquiv (formatApply worksheet range options) worksheet := by
  unfold formatApply
  have h1 : SheetEquiv (applyFontOpt worksheet range options.font) worksheet := by
    cases options.font with
    | none => exact sheetEquiv_refl _
    | some p =>
      show SheetEquiv
        (mapRect worksheet range fun c => { c with font := c.font.assign p }) worksheet
      exact mapRect_obs fun c => rfl
  have h2 : SheetEquiv (applyFillOpt (applyFontOpt worksheet range options.font)
      range options.fill) (applyFontOpt worksheet range options.font) := by
    cases options.fill with
    | none => exact sheetEquiv_refl _
    | some p =>
      show SheetEquiv
        (mapRect (applyFontOpt worksheet range options.font) range fun c =>
          { c with fill := c.fill.assign p })
        (applyFontOpt worksheet range options.font)
      exact mapRect_obs fun c => rfl
  have h3 : SheetEquiv (applyBordersOpt (applyFillOpt
      (applyFontOpt worksheet range options.font) range options.fill) range
      options.borders) (applyFillOpt (applyFontOpt worksheet range options.font)
      range options.fill) := by
    cases options.borders with
    | none => exact sheetEquiv_refl _
    | some p =>
      show SheetEquiv
        (mapRect (applyFillOpt (applyFontOpt worksheet range options.font) range
          options.fill) range fun c => { c with borders := c.borders.assign p })
        (applyFillOpt (applyFontOpt worksheet range options.font) range options.fill)
      exact mapRect_obs fun c => rfl
  have h4 : SheetEquiv (applyNumberFormatOpt (applyBordersOpt (applyFillOpt
      (applyFontOpt worksheet range options.font) range options.fill) range
      options.borders) range options.numberFormat) (applyBordersOpt (applyFillOpt
      (applyFontOpt worksheet range options.font) range options.fill) range
      options.borders) := by
    cases options.numberFormat with
    | none => exact sheetEquiv_refl _
    | some nf =>
      show SheetEquiv
        (mapRect (applyBordersOpt (applyFillOpt (applyFontOpt worksheet range
          options.font) range options.fill) range options.borders) range fun c =>
          { c with numberFormat := nf })
        (applyBordersOpt (applyFillOpt (applyFontOpt worksheet range options.font)
          range options.fill) range options.borders)
      exact mapRect_obs fun c => rfl
  exact sheetEquiv_trans (sheetEquiv_trans (sheetEquiv_trans h4 h3) h2) h1

/-- Restore lemma for `setCellValue`: its inverse succeeds on any document
equivalent to the post-state and restores equivalence to the pre-state. -/
theorem setCellValue_restore {target : String} {value : Option OpVal}
    {options : Options} {d d' : Doc} {inv : UndoOp}
    (h : setCellValue target value options d = .ok (d', inv)) (e : Doc)
    (he : DocEquiv e d') :
    ∃ e', runInv inv e = .ok e' ∧ DocEquiv e' d := by
  unfold setCellValue at h
  cases hs : activeSheet? d with
  | none => rw [hs] at h; cases h
  | some s =>
    rw [hs] at h
    cases hrp : parseRect target with
    | none => rw [hrp] at h; cases h
    | some r =>
      rw [hrp] at h
      simp only [Except.ok.injEq, Prod.mk.injEq] at h
      obtain ⟨h1, h2⟩ := h
      subst h1; subst h2
      obtain ⟨t, hte, hts⟩ := activeSheet?_equiv he (activeSheet?_setActive hs)
      refine ⟨setActive e (writeValues t r (readValues s r)), ?_, ?_⟩
      · simp only [runInv, hte, hrp]
      · exact setActive_restore hs he (writeValues_restore hts)

/-- Restore lemma for `sortRange`: writing the captured values back restores
the pre-sort state. -/
theorem sortRange_restore {target : String} {options : Options} {d d' : Doc}
    {inv : UndoOp}
    (h : sortRange target options d = .ok (d', inv)) (e : Doc)
    (he : DocEquiv e d') :
    ∃ e', runInv inv e = .ok e' ∧ DocEquiv e' d := by
  unfold sortRange at h
  cases hs : activeSheet? d with
  | none => rw [hs] at h; cases h
  | some s =>
    rw [hs] at h
    cases hrp : parseRect target with
    | none => rw [hrp] at h; cases h
    | some r =>
      rw [hrp] at h
      simp only [Except.ok.injEq, Prod.mk.injEq] at h
      obtain ⟨h1, h2⟩ := h
      subst h1; subst h2
      obtain ⟨t, hte, hts⟩ := activeSheet?_equiv he (activeSheet?_setActive hs)
      refine ⟨setActive e (writeValues t r (readValues s r)), ?_, ?_⟩
      · simp only [runInv, hte, hrp]
      · exact setActive_restore hs he (writeValues_restore hts)

/-- Restore lemma for `setFormula`. -/
theorem setFormula_restore {target : String} {value : Option OpVal}
    {options : Options} {d d' : Doc} {inv : UndoOp}
    (h : setFormula target value options d = .ok (d', inv)) (e : Doc)
    (he : DocEquiv e d') :
    ∃ e', runInv inv e = .ok e' ∧ DocEquiv e' d := by
  unfold setFormula at h
  cases hs : activeSheet? d with
  | none => rw [hs] at h; cases h
  | some s =>
    rw [hs] at h
    cases hrp : parseRect target with
    | none => rw [hrp] at h; cases h
    | some r =>
      rw [hrp] at h
      simp only [Except.ok.injEq, Prod.mk.injEq] at h
      obtain ⟨h1, h2⟩ := h
      subst h1; subst h2
      obtain ⟨t, hte, hts⟩ := activeSheet?_equiv he (activeSheet?_setActive hs)
      refine ⟨setActive e (writeFormulas t r (readFormulas s r)), ?_, ?_⟩
      · simp only [runInv, hte, hrp]
      · exact setActive_restore hs he (writeFormulas_restore hts)

/-- Restore lemma for `formatRange` with respect to observable content: both
the merge and the re-assignment of the captured sub-objects touch only
formats. -/
theorem formatRange_restore {target : String} {options : Options} {d d' : Doc}
    {inv : UndoOp}
    (h : formatRange target options d = .ok (d', inv)) (e : Doc)
    (he : DocEquiv e d') :
    ∃ e', runInv inv e = .ok e' ∧ DocEquiv e' d := by
  unfold formatRange at h
  cases hs : activeSheet? d with
  | none => rw [hs] at h; cases h
  | some s =>
    rw [hs] at h
    cases hrp : parseRect target with
    | none => rw [hrp] at h; cases h
    | some r =>
      rw [hrp] at h
      simp only [Except.ok.injEq, Prod.mk.injEq] at h
      obtain ⟨h1, h2⟩ := h
      subst h1; subst h2
      obtain ⟨t, hte, hts⟩ := activeSheet?_equiv he (activeSheet?_setActive hs)
      refine ⟨setActive e (mapRect t r fun c =>
        { c with font := (s.cells r.r1 r.c1).font, fill := (s.cells r.r1 r.c1).fill,
                 borders := (s.cells r.r1 r.c1).borders }), ?_, ?_⟩
      · simp only [runInv, hte, hrp]
      · refine setActive_restore hs he ?_
        have hm : SheetEquiv (mapRect t r fun c =>
            { c with font := (s.cells r.r1 r.c1).font,
                     fill := (s.cells r.r1 r.c1).fill,
                     borders := (s.cells r.r1 r.c1).borders }) t :=
          mapRect_obs fun c => rfl
        exact sheetEquiv_trans (sheetEquiv_trans hm hts) (formatApply_obs s r options)

/-- Restore lemma for `addConditionalFormatting`: the rule list is not part
of the observable content, and `clearAll` touches nothing else. -/
theorem addConditionalFormatting_restore {target : String} {options : Options}
    {d d' : Doc} {inv : UndoOp}
    (h : addConditionalFormatting target options d = .ok (d', inv)) (e : Doc)
    (he : DocEquiv e d') :
    ∃ e', runInv inv e = .ok e' ∧ DocEquiv e' d := by
  unfold addConditionalFormatting at h
  cases hs : activeSheet? d with
  | none => rw [hs] at h; cases h
  | some s =>
    rw [hs] at h
    cases hrp : parseRect target with
    | none => rw [hrp] at h; cases h
    | some r =>
      rw [hrp] at h
      cases hty : options.typ with
      | none => rw [hty] at h; cases h
      | some ty =>
        rw [hty] at h
        simp only [Except.ok.injEq, Prod.mk.injEq] at h
        obtain ⟨h1, h2⟩ := h
        subst h1; subst h2
        obtain ⟨t, hte, hts⟩ := activeSheet?_equiv he (activeSheet?_setActive hs)
        refine ⟨setActive e
          { t with condFmts := t.condFmts.filter fun rc => !(rectsOverlap rc.1 r) },
          ?_, ?_⟩
        · simp only [runInv, hte, hrp]
        · refine setActive_restore hs he ?_
          have h3 : SheetEquiv
              { t with condFmts := t.condFmts.filter fun rc => !(rectsOverlap rc.1 r) }
              t := ⟨rfl, fun _ _ => rfl, rfl, rfl⟩
          have h4 : SheetEquiv
              { s with condFmts := s.condFmts ++ [(r,
                  if ty = "cellValue" then
                    { cfType := ty, fillColor := jsOrS options.fillColor "red",
                      rule := (options.rule).getD "" }
                  else { cfType := ty, fillColor := "", rule := "" })] } s :=
            ⟨rfl, fun _ _ => rfl, rfl, rfl⟩
          exact sheetEquiv_trans (sheetEquiv_trans h3 hts) h4

/-- Restore lemma for `applyFilter`: the autofilter is not part of the
observable content. -/
theorem applyFilter_restore {target : String} {options : Options} {d d' : Doc}
    {inv : UndoOp}
    (h : applyFilter target options d = .ok (d', inv)) (e : Doc)
    (he : DocEquiv e d') :
    ∃ e', runInv inv e = .ok e' ∧ DocEquiv e' d := by
  unfold applyFilter at h
  cases hs : activeSheet? d with
  | none => rw [hs] at h; cases h
  | some s =>
    rw [hs] at h
    cases hrp : parseRect target with
    | none => rw [hrp] at h; cases h
    | some r =>
      rw [hrp] at h
      simp only [Except.ok.injEq, Prod.mk.injEq] at h
      obtain ⟨h1, h2⟩ := h
      subst h1; subst h2
      obtain ⟨t, hte, hts⟩ := activeSheet?_equiv he (activeSheet?_setActive hs)
      refine ⟨setActive e { t with autoFilter := none }, ?_, ?_⟩
      · simp only [runInv, hte, hrp]
      · refine setActive_restore hs he ?_
        have h3 : SheetEquiv { t with autoFilter := none } t :=
          ⟨rfl, fun _ _ => rfl, rfl, rfl⟩
        have h4 : SheetEquiv { s with autoFilter := some (r,
            match options.columnIndex, options.filterCriteria with
            | some ci, some fc => if ci ≠ 0 && fc ≠ "" then some (ci, fc) else none
            | _, _ => none) } s := ⟨rfl, fun _ _ => rfl, rfl, rfl⟩
        exact sheetEquiv_trans (sheetEquiv_trans h3 hts) h4

/-- Restore lemma for `insertRows`: the inverse delete (shift up) cancels the
insert (shift down). -/
theorem insertRows_restore {target : String} {count : Int} {d d' : Doc}
    {inv : UndoOp}
    (h : insertRows target count d = .ok (d', inv)) (e : Doc)
    (he : DocEquiv e d') :
    ∃ e', runInv inv e = .ok e' ∧ DocEquiv e' d := by
  unfold insertRows at h
  cases hs : activeSheet? d with
  | none => rw [hs] at h; cases h
  | some s =>
    rw [hs] at h
    cases hrp : parseRect target with
    | none => rw [hrp] at h; cases h
    | some r =>
      rw [hrp] at h
      simp only [Except.ok.injEq, Prod.mk.injEq] at h
      obtain ⟨h1, h2⟩ := h
      subst h1; subst h2
      obtain ⟨t, hte, hts⟩ := activeSheet?_equiv he (activeSheet?_setActive hs)
      refine ⟨setActive e (deleteShiftUp t r), ?_, ?_⟩
      · simp only [runInv, hte, hrp]
      · exact setActive_restore hs he (insert_down_restore hts)

/-- Restore lemma for `insertColumns`. -/
theorem insertColumns_restore {target : String} {count : Int} {d d' : Doc}
    {inv : UndoOp}
    (h : insertColumns target count d = .ok (d', inv)) (e : Doc)
    (he : DocEquiv e d') :
    ∃ e', runInv inv e = .ok e' ∧ DocEquiv e' d := by
  unfold insertColumns at h
  cases hs : activeSheet? d with
  | none => rw [hs] at h; cases h
  | some s =>
    rw [hs] at h
    cases hrp : parseRect target with
    | none => rw [hrp] at h; cases h
    | some r =>
      rw [hrp] at h
      simp only [Except.ok.injEq, Prod.mk.injEq] at h
      obtain ⟨h1, h2⟩ := h
      subst h1; subst h2
      obtain ⟨t, hte, hts⟩ := activeSheet?_equiv he (activeSheet?_setActive hs)
      refine ⟨setActive e (deleteShiftLeft t r), ?_, ?_⟩
      · simp only [runInv, hte, hrp]
      · exact setActive_restore hs he (insert_right_restore hts)

/-- Restore lemma for `deleteRows`: the inverse re-inserts space and writes
the captured values and formulas back. -/
theorem deleteRows_restore {target : String} {d d' : Doc} {inv : UndoOp}
    (h : deleteRows target d = .ok (d', inv)) (e : Doc)
    (he : DocEquiv e d') :
    ∃ e', runInv inv e = .ok e' ∧ DocEquiv e' d := by
  unfold deleteRows at h
  cases hs : activeSheet? d with
  | none => rw [hs] at h; cases h
  | some s =>
    rw [hs] at h
    cases hrp : parseRect target with
    | none => rw [hrp] at h; cases h
    | some r =>
      rw [hrp] at h
      simp only [Except.ok.injEq, Prod.mk.injEq] at h
      obtain ⟨h1, h2⟩ := h
      subst h1; subst h2
      obtain ⟨t, hte, hts⟩ := activeSheet?_equiv he (activeSheet?_setActive hs)
      refine ⟨setActive e (writeFormulas
        (writeValues (insertShiftDown t r) r (readValues s r)) r
        (readFormulas s r)), ?_, ?_⟩
      · simp only [runInv, hte, hrp]
      · exact setActive_restore hs he
          (delete_up_restore (parseRect_norm hrp).1 hts)

/-- Restore lemma for `deleteColumns`. -/
theorem deleteColumns_restore {target : String} {d d' : Doc} {inv : UndoOp}
    (h : deleteColumns target d = .ok (d', inv)) (e : Doc)
    (he : DocEquiv e d') :
    ∃ e', runInv inv e = .ok e' ∧ DocEquiv e' d := by
  unfold deleteColumns at h
  cases hs : activeSheet? d with
  | none => rw [hs] at h; cases h
  | some s =>
    rw [hs] at h
    cases hrp : parseRect target with
    | none => rw [hrp] at h; cases h
    | some r =>
      rw [hrp] at h
      simp only [Except.ok.injEq, Prod.mk.injEq] at h
      obtain ⟨h1, h2⟩ := h
      subst h1; subst h2
      obtain ⟨t, hte, hts⟩ := activeSheet?_equiv he (activeSheet?_setActive hs)
      refine ⟨setActive e (writeFormulas
        (writeValues (insertShiftRight t r) r (readValues s r)) r
        (readFormulas s r)), ?_, ?_⟩
      · simp only [runInv, hte, hrp]
      · exact setActive_restore hs he
          (delete_left_restore (parseRect_norm hrp).2 hts)

theorem forall₂_names : ∀ {l m : List Sheet}, List.Forall₂ SheetEquiv l m →
    (l.map fun s => s.name) = m.map fun s => s.name
  | _, _, List.Forall₂.nil => rfl
  | _, _, List.Forall₂.cons h t => by
    simp only [List.map_cons, forall₂_names t, h.name_eq]

theorem getD_of_get? {l : List α} {i : Nat} {a : α} (dflt : α)
    (h : l.get? i = some a) : l.getD i dflt = a := by
  rw [List.getD_eq_getElem?_getD, ← List.get?_eq_getElem?, h, Option.getD_some]

theorem set_same : ∀ {l : List α} {i : Nat} {a : α}, l.get? i = some a →
    l.set i a = l := by
  intro l
  induction l with
  | nil => intro i a h; cases h
  | cons x xs ih =>
    intro i a h
    cases i with
    | zero => simp only [List.get?, Option.some.injEq] at h; simp [List.set, h]
    | succ i' => simp only [List.get?] at h; simp [List.set, ih h]

theorem findIdx_found : ∀ (l : List α) (p : α → Bool), l.findIdx p < l.length →
    ∃ x, l.get? (l.findIdx p) = some x ∧ p x = true := by
  intro l
  induction l with
  | nil => intro p h; simp at h
  | cons a as ih =>
    intro p h
    by_cases hp : p a = true
    · exact ⟨a, by simp [List.findIdx_cons, hp], hp⟩
    · have hpf : p a = false := by simpa using hp
      rw [List.findIdx_cons, hpf, cond_false] at h ⊢
      obtain ⟨x, hx, hpx⟩ := ih p (by simpa using h)
      exact ⟨x, by simpa using hx, hpx⟩

theorem findIdx_min : ∀ (l : List α) (p : α → Bool) (k : Nat),
    k < l.findIdx p → ∀ x, l.get? k = some x → p x = false := by
  intro l
  induction l with
  | nil => intro p k hk x hx; cases hx
  | cons a as ih =>
    intro p k hk x hx
    by_cases hp : p a = true
    · rw [List.findIdx_cons, hp, cond_true] at hk; omega
    · have hpf : p a = false := by simpa using hp
      rw [List.findIdx_cons, hpf, cond_false] at hk
      cases k with
      | zero =>
        simp only [List.get?, Option.some.injEq] at hx
        exact hx ▸ hpf
      | succ k' =>
        simp only [List.get?] at hx
        exact ih p k' (by omega) x hx

/-- After renaming position `i` to a name no other element carries, `findIdx`
by that name lands back on `i`. -/
theorem findIdx_set_unique : ∀ (l : List String) (i : Nat) (v : String),
    i < l.length → (∀ x ∈ l, (x == v) = false) →
    (l.set i v).findIdx (fun x => x == v) = i := by
  intro l
  induction l with
  | nil => intro i v h _; simp at h
  | cons a as ih =>
    intro i v h hall
    cases i with
    | zero => simp [List.set, List.findIdx_cons]
    | succ i' =>
      have ha : (a == v) = false := hall a (List.mem_cons_self a as)
      simp only [List.set, List.findIdx_cons, ha, cond_false]
      rw [ih i' v (by simpa using h) fun x hx => hall x (List.mem_cons_of_mem a hx)]

/-- Renaming the unique occurrence of `cur` at position `i` removes every
occurrence of `cur`. -/
theorem nodup_set_any_eq_false : ∀ (l : List String) (i : Nat) (cur new : String),
    l.Nodup → l.get? i = some cur → ¬(new = cur) →
    ((l.set i new).any fun x => x == cur) = false := by
  intro l
  induction l with
  | nil => intro i cur new _ h _; cases h
  | cons a as ih =>
    intro i cur new hnd hg hne
    cases i with
    | zero =>
      simp only [List.get?, Option.some.injEq] at hg
      subst hg
      simp only [List.set, List.any_cons, Bool.or_eq_false_iff]
      refine ⟨by simpa using hne, ?_⟩
      rw [List.any_eq_false]
      intro x hx
      simp only [beq_iff_eq]
      intro hxa
      subst hxa
      exact (List.nodup_cons.mp hnd).1 hx
    | succ i' =>
      simp only [List.get?] at hg
      have hcur_mem : cur ∈ as := by
        have := List.get?_mem hg
        exact this
      simp only [List.set, List.any_cons, Bool.or_eq_false_iff]
      constructor
      · have hane : a ≠ cur := fun ha => (List.nodup_cons.mp hnd).1 (ha ▸ hcur_mem)
        simpa using hane
      · exact ih i' cur new (List.nodup_cons.mp hnd).2 hg hne

theorem forall₂_filter_name {n : String} :
    ∀ {l m : List Sheet}, List.Forall₂ SheetEquiv l m →
    List.Forall₂ SheetEquiv (l.filter fun s => !(s.name == n))
      (m.filter fun s => !(s.name == n)) := by
  intro l m h
  induction h with
  | nil => exact List.Forall₂.nil
  | cons hab t ih =>
    rename_i a b l' m'
    simp only [List.filter_cons]
    rw [hab.name_eq]
    by_cases hb : (!(b.name == n)) = true
    · rw [if_pos hb, if_pos hb]
      exact List.Forall₂.cons hab ih
    · rw [if_neg hb, if_neg hb]
      exact ih

/-- Restore lemma for `createChart`: the inverse deletes exactly the chart
with the captured generated id and leaves everything else untouched. -/
theorem createChart_restore {target : String} {options : Options} {d d' : Doc}
    {inv : UndoOp} (hWF : WF d)
    (h : createChart target options d = .ok (d', inv)) (e : Doc)
    (he : DocEquiv e d') :
    ∃ e', runInv inv e = .ok e' ∧ DocEquiv e' d := by
  unfold createChart at h
  cases hs : activeSheet? d with
  | none => rw [hs] at h; cases h
  | some s =>
    rw [hs] at h
    cases hrp : parseRect target with
    | none => rw [hrp] at h; cases h
    | some r =>
      rw [hrp] at h
      simp only [Except.ok.injEq, Prod.mk.injEq] at h
      obtain ⟨h1, h2⟩ := h
      subst h1; subst h2
      obtain ⟨t, hte, hts⟩ := activeSheet?_equiv he (activeSheet?_setActive hs)
      have hsmem : s ∈ d.sheets := List.get?_mem hs
      have hfresh : ∀ c ∈ s.charts, c.id ≠ d.nextChartId := fun c hc =>
        Nat.ne_of_lt ((hWF.2 s hsmem).1 c hc)
      have hany : (t.charts.any fun c => c.id == d.nextChartId) = true := by
        rw [hts.charts_eq]
        simp
      have hfilter : (t.charts.filter fun c => !(c.id == d.nextChartId)) =
          s.charts := by
        rw [hts.charts_eq, List.filter_append]
        have h5 : (s.charts.filter fun c => !(c.id == d.nextChartId)) = s.charts :=
          List.filter_eq_self.mpr fun c hc => by simpa using hfresh c hc
        simp [h5]
      refine ⟨setActive e
        { t with charts := t.charts.filter fun c => !(c.id == d.nextChartId) },
        ?_, ?_⟩
      · simp only [runInv, hte, hany, if_true]
      · exact setActive_restore hs he
          ⟨hts.name_eq, hts.cells_eq, hfilter, hts.pivots_eq⟩

/-- Restore lemma for `createPivotTable`: the inverse deletes exactly the
pivot table with the captured generated id. -/
theorem createPivotTable_restore {target : String} {options : Options}
    {d d' : Doc} {inv : UndoOp} (hWF : WF d)
    (h : createPivotTable target options d = .ok (d', inv)) (e : Doc)
    (he : DocEquiv e d') :
    ∃ e', runInv inv e = .ok e' ∧ DocEquiv e' d := by
  unfold createPivotTable at h
  cases hs : activeSheet? d with
  | none => rw [hs] at h; cases h
  | some s =>
    rw [hs] at h
    cases hrp : parseRect target with
    | none => rw [hrp] at h; cases h
    | some r =>
      rw [hrp] at h
      dsimp only at h
      cases hrp2 : parseRect (jsOrS options.destination "H1") with
      | none => rw [hrp2] at h; cases h
      | some r2 =>
        rw [hrp2] at h
        by_cases hdup :
            (s.pivots.any fun p =>
              p.name == jsOrS options.name "ManicePivotTable") = true
        · rw [if_pos hdup] at h; cases h
        · rw [if_neg hdup] at h
          simp only [Except.ok.injEq, Prod.mk.injEq] at h
          obtain ⟨h1, h2⟩ := h
          subst h1; subst h2
          obtain ⟨t, hte, hts⟩ := activeSheet?_equiv he (activeSheet?_setActive hs)
          have hsmem : s ∈ d.sheets := List.get?_mem hs
          have hfresh : ∀ p ∈ s.pivots, p.id ≠ d.nextPivotId := fun p hp =>
            Nat.ne_of_lt ((hWF.2 s hsmem).2 p hp)
          have hany : (t.pivots.any fun p => p.id == d.nextPivotId) = true := by
            rw [hts.pivots_eq]
            simp
          have hfilter : (t.pivots.filter fun p => !(p.id == d.nextPivotId)) =
              s.pivots := by
            rw [hts.pivots_eq, List.filter_append]
            have h5 : (s.pivots.filter fun p => !(p.id == d.nextPivotId)) =
                s.pivots :=
              List.filter_eq_self.mpr fun p hp => by simpa using hfresh p hp
            simp [h5]
          refine ⟨setActive e
            { t with pivots := t.pivots.filter fun p => !(p.id == d.nextPivotId) },
            ?_, ?_⟩
          · simp only [runInv, hte, hany, if_true]
          · exact setActive_restore hs he
              ⟨hts.name_eq, hts.cells_eq, hts.charts_eq, hfilter⟩

theorem any_name_map (l : List Sheet) (v : String) :
    (l.any fun s => s.name == v) = ((l.map fun s => s.name).any fun x => x == v) := by
  induction l with
  | nil => rfl
  | cons a as ih => simp [List.any_cons, ih]

theorem findIdx_name_map (l : List Sheet) (v : String) :
    (l.findIdx fun s => s.name == v) =
      ((l.map fun s => s.name).findIdx fun x => x == v) := by
  induction l with
  | nil => rfl
  | cons a as ih => simp [List.findIdx_cons, ih]

/-- Restore lemma for `createSheet`: the inverse deletes the sheet by the
captured name, which did not previously exist. -/
theorem createSheet_restore {name : String} {options : Options} {d d' : Doc}
    {inv : UndoOp}
    (h : createSheet name options d = .ok (d', inv)) (e : Doc)
    (he : DocEquiv e d') :
    ∃ e', runInv inv e = .ok e' ∧ DocEquiv e' d := by
  unfold createSheet at h
  by_cases hdup : (d.sheets.any fun s => s.name == name) = true
  · rw [if_pos hdup] at h; cases h
  · rw [if_neg hdup] at h
    simp only [Except.ok.injEq, Prod.mk.injEq] at h
    obtain ⟨h1, h2⟩ := h
    subst h1; subst h2
    have hnames : (e.sheets.map fun s => s.name) =
        (d.sheets.map fun s => s.name) ++ [name] := by
      have h3 := forall₂_names he.1
      simpa using h3
    have hany : (e.sheets.any fun s => s.name == name) = true := by
      rw [any_name_map, hnames]
      simp
    have hfilter :
        List.Forall₂ SheetEquiv (e.sheets.filter fun s => !(s.name == name))
          d.sheets := by
      have h4 := forall₂_filter_name (n := name) he.1
      have h5 : ((d.sheets ++
          [{ defaultSheet with name := name, tabColor := options.tabColor }]).filter
            fun s => !(s.name == name)) = d.sheets := by
        rw [List.filter_append]
        have h6 : (d.sheets.filter fun s => !(s.name == name)) = d.sheets :=
          List.filter_eq_self.mpr fun s hs => by
            have h7 : (s.name == name) = false := by
              have h8 := List.any_eq_false.mp (Bool.not_eq_true _ ▸ hdup) s hs
              simpa using h8
            simp [h7]
        simp [h6]
      exact h5 ▸ h4
    refine ⟨{ e with sheets := e.sheets.filter fun s => !(s.name == name) }, ?_, ?_⟩
    · simp only [runInv, hany, if_true]
    · exact ⟨hfilter, he.2⟩

/-- Restore lemma for `renameSheet`: the inverse looks the sheet up by the
captured new name and renames it back.  Requires distinct sheet names, which
`WF` provides. -/
theorem renameSheet_restore {currentName newName : String} {d d' : Doc}
    {inv : UndoOp} (hnd : (d.sheets.map fun s => s.name).Nodup)
    (h : renameSheet currentName newName d = .ok (d', inv)) (e : Doc)
    (he : DocEquiv e d') :
    ∃ e', runInv inv e = .ok e' ∧ DocEquiv e' d := by
  unfold renameSheet at h
  cases hcore : renameSheetCore currentName newName d with
  | error err => rw [hcore] at h; cases h
  | ok dr =>
    rw [hcore] at h
    dsimp only [Except.map] at h
    simp only [Except.ok.injEq, Prod.mk.injEq] at h
    obtain ⟨h1, h2⟩ := h
    subst h1; subst h2
    unfold renameSheetCore at hcore
    by_cases hlt : (d.sheets.findIdx fun s => s.name == currentName) <
        d.sheets.length
    · rw [if_pos hlt] at hcore
      by_cases hguard : ((d.sheets.any fun s => s.name == newName) &&
          !(newName == currentName)) = true
      · rw [if_pos hguard] at hcore; cases hcore
      · rw [if_neg hguard] at hcore
        simp only [Except.ok.injEq] at hcore
        subst hcore
        obtain ⟨sᵢ, hgi, hpi⟩ :=
          findIdx_found d.sheets (fun s => s.name == currentName) hlt
        have hsname : sᵢ.name = currentName := by simpa using hpi
        have hgetD : d.sheets.getD (d.sheets.findIdx fun s =>
            s.name == currentName) defaultSheet = sᵢ := getD_of_get? _ hgi
        rw [hgetD] at he
        -- names of the renamed document and of e
        have hN : ((d.sheets.set (d.sheets.findIdx fun s => s.name == currentName)
            { sᵢ with name := newName }).map fun s => s.name) =
            ((d.sheets.map fun s => s.name).set
              (d.sheets.findIdx fun s => s.name == currentName) newName) := by
          rw [List.map_set]
        have hen : (e.sheets.map fun s => s.name) =
            ((d.sheets.map fun s => s.name).set
              (d.sheets.findIdx fun s => s.name == currentName) newName) := by
          have h3 := forall₂_names he.1
          simpa [hN] using h3
        have hNget : ((d.sheets.map fun s => s.name).get?
            (d.sheets.findIdx fun s => s.name == currentName)) =
            some currentName := by
          rw [List.get?_eq_getElem?, List.getElem?_map, ← List.get?_eq_getElem?,
            hgi]
          simp [hsname]
        have hNlen : (d.sheets.findIdx fun s => s.name == currentName) <
            (d.sheets.map fun s => s.name).length := by
          simpa using hlt
        -- the inverse finds the renamed sheet at the same index
        have hidx : (e.sheets.findIdx fun s => s.name == newName) =
            (d.sheets.findIdx fun s => s.name == currentName) := by
          rw [findIdx_name_map, hen]
          by_cases hnc : newName = currentName
          · subst hnc
            rw [set_same hNget]
            have h4 : ((d.sheets.map fun s => s.name).findIdx fun x =>
                x == newName) = (d.sheets.findIdx fun s => s.name == newName) :=
              (findIdx_name_map d.sheets newName).symm
            rw [h4]
          · have hanyN : (d.sheets.any fun s => s.name == newName) = false := by
              by_cases hA : (d.sheets.any fun s => s.name == newName) = true
              · exfalso
                apply hguard
                rw [hA]
                simp [hnc]
              · simpa using hA
            refine findIdx_set_unique _ _ _ hNlen ?_
            intro x hx
            rw [any_name_map] at hanyN
            have h6 := List.any_eq_false.mp hanyN x hx
            simpa using h6
        -- the inverse's duplicate guard is false
        have hguard' : ((e.sheets.any fun s => s.name == currentName) &&
            !(currentName == newName)) = false := by
          by_cases hnc : newName = currentName
          · subst hnc
            simp
          · have h7 : ((((d.sheets.map fun s => s.name).set
                (d.sheets.findIdx fun s => s.name == currentName) newName)).any
                  fun x => x == currentName) = false :=
              nodup_set_any_eq_false _ _ _ _ hnd hNget hnc
            rw [any_name_map, hen, h7]
            simp
        have hlen : e.sheets.length = d.sheets.length := by
          have h8 := List.Forall₂.length_eq he.1
          simpa using h8
        have hlt' : (e.sheets.findIdx fun s => s.name == newName) <
            e.sheets.length := by
          rw [hidx, hlen]
          exact hlt
        -- the sheet the inverse will rename back
        have hdr : (d.sheets.set (d.sheets.findIdx fun s => s.name == currentName)
            { sᵢ with name := newName }).get?
              (d.sheets.findIdx fun s => s.name == currentName) =
            some { sᵢ with name := newName } :=
          List.get?_set_eq_of_lt _ hlt
        obtain ⟨tᵢ, hti, htis⟩ := forall₂_get?_right he.1 hdr
        have htiD : e.sheets.getD (e.sheets.findIdx fun s => s.name == newName)
            defaultSheet = tᵢ := by
          rw [hidx]
          exact getD_of_get? _ hti
        have hback : SheetEquiv { tᵢ with name := currentName } sᵢ :=
          ⟨hsname.symm, htis.cells_eq, htis.charts_eq, htis.pivots_eq⟩
        refine ⟨{ e with sheets := e.sheets.set (e.sheets.findIdx fun s => s.name == newName) { tᵢ with name := currentName } }, ?_, ?_⟩
        · simp only [runInv]
          unfold renameSheetCore
          rw [if_pos (by rw [hidx, hlen]; exact hlt), if_neg (by rw [hguard']; simp),
            htiD]
        · refine ⟨?_, he.2⟩
          rw [hidx]
          exact forall₂_set_cancel he.1 hgi hback
    · rw [if_neg hlt] at hcore; cases hcore

theorem names_get? {d : Doc} {s : Sheet} (hs : activeSheet? d = some s) :
    (d.sheets.map fun x => x.name).get? d.activeIdx = some s.name := by
  rw [List.get?_eq_getElem?, List.getElem?_map, ← List.get?_eq_getElem?]
  rw [activeSheet?] at hs
  rw [hs]
  rfl

/-- Writing back a sheet with unchanged name, charts and pivots preserves
document well-formedness. -/
theorem WF_setActive_same {d : Doc} {s t : Sheet} (hWF : WF d)
    (hs : activeSheet? d = some s) (hname : t.name = s.name)
    (hcharts : t.charts = s.charts) (hpivots : t.pivots = s.pivots) :
    WF (setActive d t) := by
  obtain ⟨hnd, hbound⟩ := hWF
  have hsmem : s ∈ d.sheets := List.get?_mem hs
  constructor
  · simp only [setActive, List.map_set, hname]
    rw [set_same (names_get? hs)]
    exact hnd
  · intro x hx
    simp only [setActive] at hx
    rcases List.mem_or_eq_of_mem_set hx with hmem | heq
    · exact hbound x hmem
    · subst heq
      exact ⟨fun c hc => (hbound s hsmem).1 c (hcharts ▸ hc),
             fun p hp => (hbound s hsmem).2 p (hpivots ▸ hp)⟩

theorem setCellValue_wf {target : String} {value : Option OpVal}
    {options : Options} {d d' : Doc} {inv : UndoOp} (hWF : WF d)
    (h : setCellValue target value options d = .ok (d', inv)) : WF d' := by
  unfold setCellValue at h
  cases hs : activeSheet? d with
  | none => rw [hs] at h; cases h
  | some s =>
    rw [hs] at h
    cases hrp : parseRect target with
    | none => rw [hrp] at h; cases h
    | some r =>
      rw [hrp] at h
      simp only [Except.ok.injEq, Prod.mk.injEq] at h
      obtain ⟨h1, _⟩ := h
      subst h1
      exact WF_setActive_same hWF hs rfl rfl rfl

theorem setFormula_wf {target : String} {value : Option OpVal}
    {options : Options} {d d' : Doc} {inv : UndoOp} (hWF : WF d)
    (h : setFormula target value options d = .ok (d', inv)) : WF d' := by
  unfold setFormula at h
  cases hs : activeSheet? d with
  | none => rw [hs] at h; cases h
  | some s =>
    rw [hs] at h
    cases hrp : parseRect target with
    | none => rw [hrp] at h; cases h
    | some r =>
      rw [hrp] at h
      simp only [Except.ok.injEq, Prod.mk.injEq] at h
      obtain ⟨h1, _⟩ := h
      subst h1
      exact WF_setActive_same hWF hs rfl rfl rfl

theorem formatRange_wf {target : String} {options : Options} {d d' : Doc}
    {inv : UndoOp} (hWF : WF d)
    (h : formatRange target options d = .ok (d', inv)) : WF d' := by
  unfold formatRange at h
  cases hs : activeSheet? d with
  | none => rw [hs] at h; cases h
  | some s =>
    rw [hs] at h
    cases hrp : parseRect target with
    | none => rw [hrp] at h; cases h
    | some r =>
      rw [hrp] at h
      simp only [Except.ok.injEq, Prod.mk.injEq] at h
      obtain ⟨h1, _⟩ := h
      subst h1
      exact WF_setActive_same hWF hs (formatApply_obs s r options).name_eq
        (formatApply_obs s r options).charts_eq (formatApply_obs s r options).pivots_eq

theorem insertRows_wf {target : String} {count : Int} {d d' : Doc}
    {inv : UndoOp} (hWF : WF d)
    (h : insertRows target count d = .ok (d', inv)) : WF d' := by
  unfold insertRows at h
  cases hs : activeSheet? d with
  | none => rw [hs] at h; cases h
  | some s =>
    rw [hs] at h
    cases hrp : parseRect target with
    | none => rw [hrp] at h; cases h
    | some r =>
      rw [hrp] at h
      simp only [Except.ok.injEq, Prod.mk.injEq] at h
      obtain ⟨h1, _⟩ := h
      subst h1
      exact WF_setActive_same hWF hs rfl rfl rfl

theorem insertColumns_wf {target : String} {count : Int} {d d' : Doc}
    {inv : UndoOp} (hWF : WF d)
    (h : insertColumns target count d = .ok (d', inv)) : WF d' := by
  unfold insertColumns at h
  cases hs : activeSheet? d with
  | none => rw [hs] at h; cases h
  | some s =>
    rw [hs] at h
    cases hrp : parseRect target with
    | none => rw [hrp] at h; cases h
    | some r =>
      rw [hrp] at h
      simp only [Except.ok.injEq, Prod.mk.injEq] at h
      obtain ⟨h1, _⟩ := h
      subst h1
      exact WF_setActive_same hWF hs rfl rfl rfl

theorem deleteRows_wf {target : String} {d d' : Doc} {inv : UndoOp}
    (hWF : WF d) (h : deleteRows target d = .ok (d', inv)) : WF d' := by
  unfold deleteRows at h
  cases hs : activeSheet? d with
  | none => rw [hs] at h; cases h
  | some s =>
    rw [hs] at h
    cases hrp : parseRect target with
    | none => rw [hrp] at h; cases h
    | some r =>
      rw [hrp] at h
      simp only [Except.ok.injEq, Prod.mk.injEq] at h
      obtain ⟨h1, _⟩ := h
      subst h1
      exact WF_setActive_same hWF hs rfl rfl rfl

theorem deleteColumns_wf {target : String} {d d' : Doc} {inv : UndoOp}
    (hWF : WF d) (h : deleteColumns target d = .ok (d', inv)) : WF d' := by
  unfold deleteColumns at h
  cases hs : activeSheet? d with
  | none => rw [hs] at h; cases h
  | some s =>
    rw [hs] at h
    cases hrp : parseRect target with
    | none => rw [hrp] at h; cases h
    | some r =>
      rw [hrp] at h
      simp only [Except.ok.injEq, Prod.mk.injEq] at h
      obtain ⟨h1, _⟩ := h
      subst h1
      exact WF_setActive_same hWF hs rfl rfl rfl

theorem sortRange_wf {target : String} {options : Options} {d d' : Doc}
    {inv : UndoOp} (hWF : WF d)
    (h : sortRange target options d = .ok (d', inv)) : WF d' := by
  unfold sortRange at h
  cases hs : activeSheet? d with
  | none => rw [hs] at h; cases h
  | some s =>
    rw [hs] at h
    cases hrp : parseRect target with
    | none => rw [hrp] at h; cases h
    | some r =>
      rw [hrp] at h
      simp only [Except.ok.injEq, Prod.mk.injEq] at h
      obtain ⟨h1, _⟩ := h
      subst h1
      exact WF_setActive_same hWF hs rfl rfl rfl

theorem addConditionalFormatting_wf {target : String} {options : Options}
    {d d' : Doc} {inv : UndoOp} (hWF : WF d)
    (h : addConditionalFormatting target options d = .ok (d', inv)) : WF d' := by
  unfold addConditionalFormatting at h
  cases hs : activeSheet? d with
  | none => rw [hs] at h; cases h
  | some s =>
    rw [hs] at h
    cases hrp : parseRect target with
    | none => rw [hrp] at h; cases h
    | some r =>
      rw [hrp] at h
      cases hty : options.typ with
      | none => rw [hty] at h; cases h
      | some ty =>
        rw [hty] at h
        simp only [Except.ok.injEq, Prod.mk.injEq] at h
        obtain ⟨h1, _⟩ := h
        subst h1
        exact WF_setActive_same hWF hs rfl rfl rfl

theorem applyFilter_wf {target : String} {options : Options} {d d' : Doc}
    {inv : UndoOp} (hWF : WF d)
    (h : applyFilter target options d = .ok (d', inv)) : WF d' := by
  unfold applyFilter at h
  cases hs : activeSheet? d with
  | none => rw [hs] at h; cases h
  | some s =>
    rw [hs] at h
    cases hrp : parseRect target with
    | none => rw [hrp] at h; cases h
    | some r =>
      rw [hrp] at h
      simp only [Except.ok.injEq, Prod.mk.injEq] at h
      obtain ⟨h1, _⟩ := h
      subst h1
      exact WF_setActive_same hWF hs rfl rfl rfl

theorem createChart_wf {target : String} {options : Options} {d d' : Doc}
    {inv : UndoOp} (hWF : WF d)
    (h : createChart target options d = .ok (d', inv)) : WF d' := by
  unfold createChart at h
  cases hs : activeSheet? d with
  | none => rw [hs] at h; cases h
  | some s =>
    rw [hs] at h
    cases hrp : parseRect target with
    | none => rw [hrp] at h; cases h
    | some r =>
      rw [hrp] at h
      simp only [Except.ok.injEq, Prod.mk.injEq] at h
      obtain ⟨h1, _⟩ := h
      subst h1
      obtain ⟨hnd, hbound⟩ := hWF
      have hsmem : s ∈ d.sheets := List.get?_mem hs
      constructor
      · simp only [setActive, List.map_set]
        rw [set_same (names_get? hs)]
        exact hnd
      · intro x hx
        simp only [setActive] at hx
        rcases List.mem_or_eq_of_mem_set hx with hmem | heq
        · exact ⟨fun c hc => Nat.lt_succ_of_lt ((hbound x hmem).1 c hc),
                 fun p hp => (hbound x hmem).2 p hp⟩
        · subst heq
          refine ⟨?_, fun p hp => (hbound s hsmem).2 p hp⟩
          intro c hc
          rcases List.mem_append.mp hc with hcm | hcm
          · exact Nat.lt_succ_of_lt ((hbound s hsmem).1 c hcm)
          · simp only [List.mem_singleton] at hcm
            subst hcm
            exact Nat.lt_succ_self _

theorem createPivotTable_wf {target : String} {options : Options} {d d' : Doc}
    {inv : UndoOp} (hWF : WF d)
    (h : createPivotTable target options d = .ok (d', inv)) : WF d' := by
  unfold createPivotTable at h
  cases hs : activeSheet? d with
  | none => rw [hs] at h; cases h
  | some s =>
    rw [hs] at h
    cases hrp : parseRect target with
    | none => rw [hrp] at h; cases h
    | some r =>
      rw [hrp] at h
      dsimp only at h
      cases hrp2 : parseRect (jsOrS options.destination "H1") with
      | none => rw [hrp2] at h; cases h
      | some r2 =>
        rw [hrp2] at h
        by_cases hdup :
            (s.pivots.any fun p =>
              p.name == jsOrS options.name "ManicePivotTable") = true
        · rw [if_pos hdup] at h; cases h
        · rw [if_neg hdup] at h
          simp only [Except.ok.injEq, Prod.mk.injEq] at h
          obtain ⟨h1, _⟩ := h
          subst h1
          obtain ⟨hnd, hbound⟩ := hWF
          have hsmem : s ∈ d.sheets := List.get?_mem hs
          constructor
          · simp only [setActive, List.map_set]
            rw [set_same (names_get? hs)]
            exact hnd
          · intro x hx
            simp only [setActive] at hx
            rcases List.mem_or_eq_of_mem_set hx with hmem | heq
            · exact ⟨fun c hc => (hbound x hmem).1 c hc,
                     fun p hp => Nat.lt_succ_of_lt ((hbound x hmem).2 p hp)⟩
            · subst heq
              refine ⟨fun c hc => (hbound s hsmem).1 c hc, ?_⟩
              intro p hp
              rcases List.mem_append.mp hp with hpm | hpm
              · exact Nat.lt_succ_of_lt ((hbound s hsmem).2 p hpm)
              · simp only [List.mem_singleton] at hpm
                subst hpm
                exact Nat.lt_succ_self _

theorem nodup_set_of_not_mem {l : List String} {i : Nat} {v : String}
    (hnd : l.Nodup) (hv : ∀ x ∈ l, x ≠ v) : (l.set i v).Nodup := by
  induction l generalizing i with
  | nil => simp [List.set]
  | cons a as ih =>
    cases i with
    | zero =>
      simp only [List.set, List.nodup_cons]
      refine ⟨?_, (List.nodup_cons.mp hnd).2⟩
      intro hv'
      exact hv v (List.mem_cons_of_mem a hv') rfl
    | succ i' =>
      simp only [List.set, List.nodup_cons]
      refine ⟨?_, ih (List.nodup_cons.mp hnd).2
        fun x hx => hv x (List.mem_cons_of_mem a hx)⟩
      intro ha
      rcases List.mem_or_eq_of_mem_set ha with hmem | heq
      · exact (List.nodup_cons.mp hnd).1 hmem
      · exact hv a (List.mem_cons_self a as) heq

theorem renameSheet_wf {currentName newName : String} {d d' : Doc}
    {inv : UndoOp} (hWF : WF d)
    (h : renameSheet currentName newName d = .ok (d', inv)) : WF d' := by
  unfold renameSheet at h
  cases hcore : renameSheetCore currentName newName d with
  | error err => rw [hcore] at h; cases h
  | ok dr =>
    rw [hcore] at h
    dsimp only [Except.map] at h
    simp only [Except.ok.injEq, Prod.mk.injEq] at h
    obtain ⟨h1, _⟩ := h
    subst h1
    unfold renameSheetCore at hcore
    by_cases hlt : (d.sheets.findIdx fun s => s.name == currentName) <
        d.sheets.length
    · rw [if_pos hlt] at hcore
      by_cases hguard : ((d.sheets.any fun s => s.name == newName) &&
          !(newName == currentName)) = true
      · rw [if_pos hguard] at hcore; cases hcore
      · rw [if_neg hguard] at hcore
        simp only [Except.ok.injEq] at hcore
        subst hcore
        obtain ⟨hnd, hbound⟩ := hWF
        obtain ⟨sᵢ, hgi, hpi⟩ :=
          findIdx_found d.sheets (fun s => s.name == currentName) hlt
        have hsname : sᵢ.name = currentName := by simpa using hpi
        have hgetD : d.sheets.getD (d.sheets.findIdx fun s =>
            s.name == currentName) defaultSheet = sᵢ := getD_of_get? _ hgi
        rw [hgetD]
        have hNget : ((d.sheets.map fun s => s.name).get?
            (d.sheets.findIdx fun s => s.name == currentName)) =
            some currentName := by
          rw [List.get?_eq_getElem?, List.getElem?_map,
            ← List.get?_eq_getElem?, hgi]
          simp [hsname]
        constructor
        · rw [List.map_set]
          by_cases hnc : newName = currentName
          · subst hnc
            rw [set_same hNget]
            exact hnd
          · have hanyN : (d.sheets.any fun s => s.name == newName) = false := by
              by_cases hA : (d.sheets.any fun s => s.name == newName) = true
              · exfalso; apply hguard; rw [hA]; simp [hnc]
              · simpa using hA
            refine nodup_set_of_not_mem hnd ?_
            intro x hx
            rw [any_name_map] at hanyN
            have h6 := List.any_eq_false.mp hanyN x hx
            simpa using h6
        · intro x hx
          rcases List.mem_or_eq_of_mem_set hx with hmem | heq
          · exact hbound x hmem
          · subst heq
            have hsmem : sᵢ ∈ d.sheets := List.get?_mem hgi
            exact ⟨fun c hc => (hbound sᵢ hsmem).1 c hc,
                   fun p hp => (hbound sᵢ hsmem).2 p hp⟩
    · rw [if_neg hlt] at hcore; cases hcore

theorem createSheet_wf {name : String} {options : Options} {d d' : Doc}
    {inv : UndoOp} (hWF : WF d)
    (h : createSheet name options d = .ok (d', inv)) : WF d' := by
  unfold createSheet at h
  by_cases hdup : (d.sheets.any fun s => s.name == name) = true
  · rw [if_pos hdup] at h; cases h
  · rw [if_neg hdup] at h
    simp only [Except.ok.injEq, Prod.mk.injEq] at h
    obtain ⟨h1, _⟩ := h
    subst h1
    obtain ⟨hnd, hbound⟩ := hWF
    constructor
    · simp only [List.map_append, List.map_cons, List.map_nil]
      rw [List.nodup_append]
      refine ⟨hnd, List.nodup_singleton _, ?_⟩
      intro x hx hmem
      simp only [List.mem_singleton] at hmem
      obtain ⟨y, hy, hyn⟩ := List.mem_map.mp hx
      have hanyN : (d.sheets.any fun s => s.name == name) = false := by
        simpa using hdup
      have h6 := List.any_eq_false.mp hanyN y hy
      rw [hyn, hmem] at h6
      simp at h6
    · intro x hx
      rcases List.mem_append.mp hx with hmem | hmem
      · exact hbound x hmem
      · simp only [List.mem_singleton] at hmem
        subst hmem
        exact ⟨fun c hc => by simp [defaultSheet] at hc,
               fun p hp => by simp [defaultSheet] at hp⟩

/-- Dispatcher step specification: a successful step preserves
well-formedness; it yields no inverse exactly on unrecognized kinds (leaving
the document untouched), and a collected inverse replays against any
equivalent post-state and restores the pre-state. -/
theorem executeOperation_spec {op : ExcelOperation} {d d' : Doc}
    {invOpt : Option UndoOp} {l : List String} (hWF : WF d)
    (h : executeOperation op d = (.ok (d', invOpt), l)) :
    WF d' ∧
    (invOpt = none → d' = d ∧ recognized op.type = false) ∧
    (∀ inv, invOpt = some inv → recognized op.type = true ∧
      ∀ e, DocEquiv e d' → ∃ e', runInv inv e = .ok e' ∧ DocEquiv e' d) := by
  unfold executeOperation at h
  by_cases h1 : op.type = "cell_edit"
  · rw [if_pos h1] at h
    cases hh : setCellValue op.target op.value op.options d with
    | error err => rw [hh] at h; dsimp only [Except.map] at h; simp at h
    | ok p =>
      rw [hh] at h; dsimp only [Except.map] at h
      simp only [Prod.mk.injEq, Except.ok.injEq] at h
      obtain ⟨⟨hd, hio⟩, hl⟩ := h
      subst hd; subst hio
      refine ⟨setCellValue_wf hWF hh, ?_, ?_⟩
      · intro hno; simp at hno
      · intro inv hinv
        injection hinv with hinv'
        subst hinv'
        exact ⟨by rw [h1]; rfl, setCellValue_restore hh⟩
  · rw [if_neg h1] at h
    by_cases h2 : op.type = "formula"
    · rw [if_pos h2] at h
      cases hh : setFormula op.target op.value op.options d with
      | error err => rw [hh] at h; dsimp only [Except.map] at h; simp at h
      | ok p =>
        rw [hh] at h; dsimp only [Except.map] at h
        simp only [Prod.mk.injEq, Except.ok.injEq] at h
        obtain ⟨⟨hd, hio⟩, hl⟩ := h
        subst hd; subst hio
        refine ⟨setFormula_wf hWF hh, ?_, ?_⟩
        · intro hno; simp at hno
        · intro inv hinv
          injection hinv with hinv'
          subst hinv'
          exact ⟨by rw [h2]; rfl, setFormula_restore hh⟩
    · rw [if_neg h2] at h
      by_cases h3 : op.type = "format"
      · rw [if_pos h3] at h
        cases hh : formatRange op.target op.options d with
        | error err => rw [hh] at h; dsimp only [Except.map] at h; simp at h
        | ok p =>
          rw [hh] at h; dsimp only [Except.map] at h
          simp only [Prod.mk.injEq, Except.ok.injEq] at h
          obtain ⟨⟨hd, hio⟩, hl⟩ := h
          subst hd; subst hio
          refine ⟨formatRange_wf hWF hh, ?_, ?_⟩
          · intro hno; simp at hno
          · intro inv hinv
            injection hinv with hinv'
            subst hinv'
            exact ⟨by rw [h3]; rfl, formatRange_restore hh⟩
      · rw [if_neg h3] at h
        by_cases h4 : op.type = "insert_row"
        · rw [if_pos h4] at h
          cases hh : insertRows op.target (jsOrI (match op.value with
          | some (.num n) => some n | _ => none) 1) d with
          | error err => rw [hh] at h; dsimp only [Except.map] at h; simp at h
          | ok p =>
            rw [hh] at h; dsimp only [Except.map] at h
            simp only [Prod.mk.injEq, Except.ok.injEq] at h
            obtain ⟨⟨hd, hio⟩, hl⟩ := h
            subst hd; subst hio
            refine ⟨insertRows_wf hWF hh, ?_, ?_⟩
            · intro hno; simp at hno
            · intro inv hinv
              injection hinv with hinv'
              subst hinv'
              exact ⟨by rw [h4]; rfl, insertRows_restore hh⟩
        · rw [if_neg h4] at h
          by_cases h5 : op.type = "insert_column"
          · rw [if_pos h5] at h
            cases hh : insertColumns op.target (jsOrI (match op.value with
          | some (.num n) => some n | _ => none) 1) d with
            | error err => rw [hh] at h; dsimp only [Except.map] at h; simp at h
            | ok p =>
              rw [hh] at h; dsimp only [Except.map] at h
              simp only [Prod.mk.injEq, Except.ok.injEq] at h
              obtain ⟨⟨hd, hio⟩, hl⟩ := h
              subst hd; subst hio
              refine ⟨insertColumns_wf hWF hh, ?_, ?_⟩
              · intro hno; simp at hno
              · intro inv hinv
                injection hinv with hinv'
                subst hinv'
                exact ⟨by rw [h5]; rfl, insertColumns_restore hh⟩
          · rw [if_neg h5] at h
            by_cases h6 : op.type = "delete_row"
            · rw [if_pos h6] at h
              cases hh : deleteRows op.target d with
              | error err => rw [hh] at h; dsimp only [Except.map] at h; simp at h
              | ok p =>
                rw [hh] at h; dsimp only [Except.map] at h
                simp only [Prod.mk.injEq, Except.ok.injEq] at h
                obtain ⟨⟨hd, hio⟩, hl⟩ := h
                subst hd; subst hio
                refine ⟨deleteRows_wf hWF hh, ?_, ?_⟩
                · intro hno; simp at hno
                · intro inv hinv
                  injection hinv with hinv'
                  subst hinv'
                  exact ⟨by rw [h6]; rfl, deleteRows_restore hh⟩
            · rw [if_neg h6] at h
              by_cases h7 : op.type = "delete_column"
              · rw [if_pos h7] at h
                cases hh : deleteColumns op.target d with
                | error err => rw [hh] at h; dsimp only [Except.map] at h; simp at h
                | ok p =>
                  rw [hh] at h; dsimp only [Except.map] at h
                  simp only [Prod.mk.injEq, Except.ok.injEq] at h
                  obtain ⟨⟨hd, hio⟩, hl⟩ := h
                  subst hd; subst hio
                  refine ⟨deleteColumns_wf hWF hh, ?_, ?_⟩
                  · intro hno; simp at hno
                  · intro inv hinv
                    injection hinv with hinv'
                    subst hinv'
                    exact ⟨by rw [h7]; rfl, deleteColumns_restore hh⟩
              · rw [if_neg h7] at h
                by_cases h8 : op.type = "chart"
                · rw [if_pos h8] at h
                  cases hh : createChart op.target op.options d with
                  | error err => rw [hh] at h; dsimp only [Except.map] at h; simp at h
                  | ok p =>
                    rw [hh] at h; dsimp only [Except.map] at h
                    simp only [Prod.mk.injEq, Except.ok.injEq] at h
                    obtain ⟨⟨hd, hio⟩, hl⟩ := h
                    subst hd; subst hio
                    refine ⟨createChart_wf hWF hh, ?_, ?_⟩
                    · intro hno; simp at hno
                    · intro inv hinv
                      injection hinv with hinv'
                      subst hinv'
                      exact ⟨by rw [h8]; rfl, createChart_restore hWF hh⟩
                · rw [if_neg h8] at h
                  by_cases h9 : op.type = "conditional_format"
                  · rw [if_pos h9] at h
                    cases hh : addConditionalFormatting op.target op.options d with
                    | error err => rw [hh] at h; dsimp only [Except.map] at h; simp at h
                    | ok p =>
                      rw [hh] at h; dsimp only [Except.map] at h
                      simp only [Prod.mk.injEq, Except.ok.injEq] at h
                      obtain ⟨⟨hd, hio⟩, hl⟩ := h
                      subst hd; subst hio
                      refine ⟨addConditionalFormatting_wf hWF hh, ?_, ?_⟩
                      · intro hno; simp at hno
                      · intro inv hinv
                        injection hinv with hinv'
                        subst hinv'
                        exact ⟨by rw [h9]; rfl, addConditionalFormatting_restore hh⟩
                  · rw [if_neg h9] at h
                    by_cases h10 : op.type = "sort"
                    · rw [if_pos h10] at h
                      cases hh : sortRange op.target op.options d with
                      | error err => rw [hh] at h; dsimp only [Except.map] at h; simp at h
                      | ok p =>
                        rw [hh] at h; dsimp only [Except.map] at h
                        simp only [Prod.mk.injEq, Except.ok.injEq] at h
                        obtain ⟨⟨hd, hio⟩, hl⟩ := h
                        subst hd; subst hio
                        refine ⟨sortRange_wf hWF hh, ?_, ?_⟩
                        · intro hno; simp at hno
                        · intro inv hinv
                          injection hinv with hinv'
                          subst hinv'
                          exact ⟨by rw [h10]; rfl, sortRange_restore hh⟩
                    · rw [if_neg h10] at h
                      by_cases h11 : op.type = "filter"
                      · rw [if_pos h11] at h
                        cases hh : applyFilter op.target op.options d with
                        | error err => rw [hh] at h; dsimp only [Except.map] at h; simp at h
                        | ok p =>
                          rw [hh] at h; dsimp only [Except.map] at h
                          simp only [Prod.mk.injEq, Except.ok.injEq] at h
                          obtain ⟨⟨hd, hio⟩, hl⟩ := h
                          subst hd; subst hio
                          refine ⟨applyFilter_wf hWF hh, ?_, ?_⟩
                          · intro hno; simp at hno
                          · intro inv hinv
                            injection hinv with hinv'
                            subst hinv'
                            exact ⟨by rw [h11]; rfl, applyFilter_restore hh⟩
                      · rw [if_neg h11] at h
                        by_cases h12 : op.type = "pivot_table"
                        · rw [if_pos h12] at h
                          cases hh : createPivotTable op.target op.options d with
                          | error err => rw [hh] at h; dsimp only [Except.map] at h; simp at h
                          | ok p =>
                            rw [hh] at h; dsimp only [Except.map] at h
                            simp only [Prod.mk.injEq, Except.ok.injEq] at h
                            obtain ⟨⟨hd, hio⟩, hl⟩ := h
                            subst hd; subst hio
                            refine ⟨createPivotTable_wf hWF hh, ?_, ?_⟩
                            · intro hno; simp at hno
                            · intro inv hinv
                              injection hinv with hinv'
                              subst hinv'
                              exact ⟨by rw [h12]; rfl, createPivotTable_restore hWF hh⟩
                        · rw [if_neg h12] at h
                          by_cases h13 : op.type = "sheet_rename"
                          · rw [if_pos h13] at h
                            cases hh : renameSheet op.target (asString op.value) d with
                            | error err => rw [hh] at h; dsimp only [Except.map] at h; simp at h
                            | ok p =>
                              rw [hh] at h; dsimp only [Except.map] at h
                              simp only [Prod.mk.injEq, Except.ok.injEq] at h
                              obtain ⟨⟨hd, hio⟩, hl⟩ := h
                              subst hd; subst hio
                              refine ⟨renameSheet_wf hWF hh, ?_, ?_⟩
                              · intro hno; simp at hno
                              · intro inv hinv
                                injection hinv with hinv'
                                subst hinv'
                                exact ⟨by rw [h13]; rfl, renameSheet_restore hWF.1 hh⟩
                          · rw [if_neg h13] at h
                            by_cases h14 : op.type = "sheet_create"
                            · rw [if_pos h14] at h
                              cases hh : createSheet (asString op.value) op.options d with
                              | error err => rw [hh] at h; dsimp only [Except.map] at h; simp at h
                              | ok p =>
                                rw [hh] at h; dsimp only [Except.map] at h
                                simp only [Prod.mk.injEq, Except.ok.injEq] at h
                                obtain ⟨⟨hd, hio⟩, hl⟩ := h
                                subst hd; subst hio
                                refine ⟨createSheet_wf hWF hh, ?_, ?_⟩
                                · intro hno; simp at hno
                                · intro inv hinv
                                  injection hinv with hinv'
                                  subst hinv'
                                  exact ⟨by rw [h14]; rfl, createSheet_restore hh⟩
                            · rw [if_neg h14] at h
                              simp only [Prod.mk.injEq, Except.ok.injEq] at h
                              obtain ⟨⟨hd, hio⟩, hl⟩ := h
                              subst hd; subst hio
                              refine ⟨hWF, ?_, ?_⟩
                              · intro _
                                refine ⟨rfl, ?_⟩
                                simp [recognized, recognizedKinds, h1, h2, h3, h4, h5, h6, h7, h8, h9,
                                  h10, h11, h12, h13, h14]
                              · intro inv hinv
                                simp at hinv

theorem runEntry_append {xs ys : List UndoOp} {d d' : Doc}
    (h : runEntry xs d = (d', none)) :
    runEntry (xs ++ ys) d = runEntry ys d' := by
  induction xs generalizing d with
  | nil =>
    simp only [runEntry, Prod.mk.injEq] at h
    rw [List.nil_append, h.1]
  | cons x xs ih =>
    simp only [runEntry] at h
    cases hr : runInv x d with
    | ok d₁ =>
      rw [hr] at h
      rw [List.cons_append]
      simp only [runEntry, hr]
      exact ih h
    | error e =>
      rw [hr] at h
      simp at h

theorem rollback_of_runEntry_ok {xs : List UndoOp} {d d' : Doc}
    (h : runEntry xs d = (d', none)) : rollback xs d = (d', []) := by
  induction xs generalizing d with
  | nil =>
    simp only [runEntry, Prod.mk.injEq] at h
    simp [rollback, h.1]
  | cons x xs ih =>
    simp only [runEntry] at h
    cases hr : runInv x d with
    | ok d₁ =>
      rw [hr] at h
      simp only [rollback, hr]
      exact ih h
    | error e =>
      rw [hr] at h
      simp at h

/-- Loop invariant of the batch executor: collected inverses are prepended
to the accumulator; well-formedness is preserved; the reported error is the
first failing step's; on success one inverse per recognized descriptor is
collected; and replaying the collected inverses front to back against any
document equivalent to the reached state restores the starting state. -/
theorem executeOperationsAux_spec :
    ∀ (ops : List ExcelOperation) (d : Doc) (acc : List UndoOp)
      (log : List String) (acc' : List UndoOp) (log' : List String) (dF : Doc)
      (errOpt : Option Err),
      WF d →
      executeOperationsAux ops d acc log = (acc', log', dF, errOpt) →
      ∃ newInvs, acc' = newInvs ++ acc ∧ WF dF ∧
        errOpt = firstFailure ops d ∧
        (errOpt = none → newInvs.length =
          (ops.filter fun op => recognized op.type).length) ∧
        (∀ e, DocEquiv e dF → ∃ e', runEntry newInvs e = (e', none) ∧
          DocEquiv e' d) := by
  intro ops
  induction ops with
  | nil =>
    intro d acc log acc' log' dF errOpt hWF haux
    simp only [executeOperationsAux, Prod.mk.injEq] at haux
    obtain ⟨h1, h2, h3, h4⟩ := haux
    subst h1; subst h2; subst h3; subst h4
    exact ⟨[], rfl, hWF, rfl, fun _ => rfl, fun e he => ⟨e, rfl, he⟩⟩
  | cons op rest ih =>
    intro d acc log acc' log' dF errOpt hWF haux
    simp only [executeOperationsAux] at haux
    cases hst : executeOperation op d with
    | mk res lg =>
      rw [hst] at haux
      cases res with
      | error e =>
        simp only [Prod.mk.injEq] at haux
        obtain ⟨h1, h2, h3, h4⟩ := haux
        subst h1; subst h2; subst h3; subst h4
        refine ⟨[], rfl, hWF, ?_, ?_, ?_⟩
        · simp only [firstFailure, hst]
        · intro hc; simp at hc
        · exact fun e' he' => ⟨e', rfl, he'⟩
      | ok pr =>
        cases pr with
        | mk d₁ invOpt =>
          obtain ⟨hWF₁, hnone, hsome⟩ := executeOperation_spec hWF hst
          cases invOpt with
          | some inv =>
            obtain ⟨hrec, hrestore⟩ := hsome inv rfl
            obtain ⟨newInvs₁, hacc, hWFF, herr, hlen, hrest⟩ :=
              ih d₁ (inv :: acc) (log ++ lg) acc' log' dF errOpt hWF₁ haux
            refine ⟨newInvs₁ ++ [inv], ?_, hWFF, ?_, ?_, ?_⟩
            · rw [hacc]; simp
            · simp only [firstFailure, hst]; exact herr
            · intro hnoneE
              rw [List.length_append, hlen hnoneE]
              have hfc : ((op :: rest).filter fun o => recognized o.type) =
                  op :: (rest.filter fun o => recognized o.type) := by
                simp [List.filter_cons, hrec]
              rw [hfc]
              simp [Nat.add_comm]
            · intro e he
              obtain ⟨e₁, hre, he₁⟩ := hrest e he
              obtain ⟨e₂, hrun, he₂⟩ := hrestore e₁ he₁
              refine ⟨e₂, ?_, he₂⟩
              rw [runEntry_append hre]
              simp [runEntry, hrun]
          | none =>
            obtain ⟨hd₁, hrecF⟩ := hnone rfl
            subst hd₁
            obtain ⟨newInvs₁, hacc, hWFF, herr, hlen, hrest⟩ :=
              ih d₁ acc (log ++ lg) acc' log' dF errOpt hWF haux
            refine ⟨newInvs₁, hacc, hWFF, ?_, ?_, hrest⟩
            · simp only [firstFailure, hst]; exact herr
            · intro hnoneE
              rw [hlen hnoneE]
              have hfc : ((op :: rest).filter fun o => recognized o.type) =
                  rest.filter fun o => recognized o.type := by
                simp [List.filter_cons, hrecF]
              rw [hfc]

/-- Consumed characters of a `[A-Z]+[0-9]+` match are letters or digits. -/
theorem matchCellChars_split {cs rest : List Char}
    (h : matchCellChars cs = some rest) :
    ∃ pre, cs = pre ++ rest ∧
      ∀ c ∈ pre, (isUpperAlpha c || isDigitCh c) = true := by
  unfold matchCellChars at h
  cases cs with
  | nil => cases h
  | cons c rest₀ =>
    dsimp only at h
    by_cases hc : isUpperAlpha c = true
    · rw [if_pos hc] at h
      cases hdw : rest₀.dropWhile isUpperAlpha with
      | nil => rw [hdw] at h; cases h
      | cons c' rest₁ =>
        rw [hdw] at h
        dsimp only at h
        by_cases hc' : isDigitCh c' = true
        · rw [if_pos hc'] at h
          simp only [Option.some.injEq] at h
          subst h
          refine ⟨c :: (rest₀.takeWhile isUpperAlpha ++
            c' :: rest₁.takeWhile isDigitCh), ?_, ?_⟩
          · have e₀ := List.takeWhile_append_dropWhile isUpperAlpha rest₀
            have e₁ := List.takeWhile_append_dropWhile isDigitCh rest₁
            calc c :: rest₀
                = c :: (rest₀.takeWhile isUpperAlpha ++
                    rest₀.dropWhile isUpperAlpha) := by rw [e₀]
              _ = c :: (rest₀.takeWhile isUpperAlpha ++ (c' :: rest₁)) := by
                    rw [hdw]
              _ = c :: (rest₀.takeWhile isUpperAlpha ++
                    (c' :: (rest₁.takeWhile isDigitCh ++
                      rest₁.dropWhile isDigitCh))) := by rw [e₁]
              _ = (c :: (rest₀.takeWhile isUpperAlpha ++
                    c' :: rest₁.takeWhile isDigitCh)) ++
                    rest₁.dropWhile isDigitCh := by simp [List.append_assoc]
          · intro x hx
            simp only [List.mem_cons, List.mem_append] at hx
            rcases hx with hx | hx | hx | hx
            · subst hx; simp [hc]
            · simp [List.mem_takeWhile_imp hx]
            · subst hx; simp [hc']
            · simp [List.mem_takeWhile_imp hx]
        · rw [if_neg hc'] at h; cases h
    · rw [if_neg hc] at h; cases h

/-- Every character of a string accepted by the range pattern is an
uppercase letter, a digit or a colon. -/
theorem rangeRegexMatch_allowed {cs : List Char} (h : rangeRegexMatch cs = true) :
    ∀ c ∈ cs, (isUpperAlpha c || isDigitCh c || c == ':') = true := by
  unfold rangeRegexMatch at h
  cases hm : matchCellChars cs with
  | none => rw [hm] at h; cases h
  | some rest =>
    rw [hm] at h
    obtain ⟨pre, hcs, hpre⟩ := matchCellChars_split hm
    subst hcs
    cases rest with
    | nil =>
      intro c hc
      simp only [List.append_nil] at hc
      simp [hpre c hc]
    | cons r rest' =>
      dsimp only at h
      by_cases hr : r = ':'
      · subst hr
        rw [if_pos rfl] at h
        cases rest' with
        | nil =>
          intro c hc
          simp only [List.mem_append, List.mem_singleton, List.mem_cons] at hc
          rcases hc with hc | hc | hc
          · simp [hpre c hc]
          · subst hc; simp
          · simp at hc
        | cons q rest'' =>
          dsimp only at h
          cases hm2 : matchCellChars (q :: rest'') with
          | none => rw [hm2] at h; cases h
          | some rest₃ =>
            rw [hm2] at h
            cases rest₃ with
            | nil =>
              obtain ⟨pre₂, hcs₂, hpre₂⟩ := matchCellChars_split hm2
              simp only [List.append_nil] at hcs₂
              intro c hc
              rw [hcs₂] at hc
              simp only [List.mem_append, List.mem_cons] at hc
              rcases hc with hc | hc | hc
              · simp [hpre c hc]
              · subst hc; simp
              · simp [hpre₂ c hc]
            | cons _ _ => cases h
      · rw [if_neg hr] at h; cases h

/-- No sheet-qualified address (any string containing an exclamation mark)
passes `isValidRange`. -/
theorem isValidRange_excl {s : String} (hmem : '!' ∈ s.data) :
    isValidRange s = false := by
  by_cases hv : isValidRange s = true
  · exfalso
    unfold isValidRange at hv
    have hmem' : '!' ∈ (jsToUpper s).data := by
      unfold jsToUpper
      exact List.mem_map.mpr ⟨'!', hmem, by decide⟩
    have hall := rangeRegexMatch_allowed hv '!' hmem'
    exact absurd hall (by decide)
  · simpa using hv

/-- The dispatcher's default branch: an unrecognized kind warns and is a
no-op with no inverse. -/
theorem executeOperation_unrecognized {op : ExcelOperation} (d : Doc)
    (h : recognized op.type = false) :
    executeOperation op d =
      (.ok (d, none), ["Unknown operation type: " ++ op.type]) := by
  have hne : ¬(op.type = "cell_edit" ∨ op.type = "formula" ∨
      op.type = "format" ∨ op.type = "insert_row" ∨
      op.type = "insert_column" ∨ op.type = "delete_row" ∨
      op.type = "delete_column" ∨ op.type = "chart" ∨
      op.type = "conditional_format" ∨ op.type = "sort" ∨
      op.type = "filter" ∨ op.type = "pivot_table" ∨
      op.type = "sheet_rename" ∨ op.type = "sheet_create") := by
    intro hmem
    rw [show (recognized op.type) = true from by
      simp [recognized, recognizedKinds]; exact hmem] at h
    cases h
  push_neg at hne
  obtain ⟨h1, h2, h3, h4, h5, h6, h7, h8, h9, h10, h11, h12, h13, h14⟩ := hne
  unfold executeOperation
  rw [if_neg h1, if_neg h2, if_neg h3, if_neg h4, if_neg h5, if_neg h6,
    if_neg h7, if_neg h8, if_neg h9, if_neg h10, if_neg h11, if_neg h12,
    if_neg h13, if_neg h14]

/-- A batch consisting only of unrecognized kinds collects nothing, changes
nothing, and warns once per descriptor. -/
theorem executeOperationsAux_all_unrecognized :
    ∀ (ops : List ExcelOperation) (d : Doc) (acc : List UndoOp)
      (log : List String),
      (∀ op ∈ ops, recognized op.type = false) →
      executeOperationsAux ops d acc log =
        (acc, log ++ ops.map fun op => "Unknown operation type: " ++ op.type,
         d, none) := by
  intro ops
  induction ops with
  | nil => intro d acc log _; simp [executeOperationsAux]
  | cons op rest ih =>
    intro d acc log hall
    have hop := executeOperation_unrecognized d (hall op (List.mem_cons_self op rest))
    simp only [executeOperationsAux, hop]
    rw [ih d acc (log ++ ["Unknown operation type: " ++ op.type])
      fun o ho => hall o (List.mem_cons_of_mem op ho)]
    simp

theorem addToUndoStack_getLast (st : SvcState) (en : List UndoOp) :
    (addToUndoStack st en).undoStack.getLast? = some en := by
  unfold addToUndoStack
  dsimp only
  by_cases hover : (st.undoStack ++ [en]).length > maxUndoSteps
  · rw [if_pos hover]
    have hne : 1 ≤ st.undoStack.length := by
      simp only [List.length_append, List.length_singleton] at hover
      by_contra hlt
      have h0 : st.undoStack.length = 0 := by omega
      rw [h0] at hover
      simp [maxUndoSteps] at hover
    rw [List.drop_append_of_le_length hne]
    exact List.getLast?_concat _
  · rw [if_neg hover]
    exact List.getLast?_concat _

theorem addToUndoStack_doc (st : SvcState) (en : List UndoOp) :
    (addToUndoStack st en).doc = st.doc := rfl

/-- Popping right after a push replays exactly the pushed entry. -/
theorem undo_push (st₁ : SvcState) (en : List UndoOp) {d' : Doc}
    (hrun : runEntry en st₁.doc = (d', none)) :
    undo (addToUndoStack st₁ en) =
      ({ addToUndoStack st₁ en with doc := d', undoStack := (addToUndoStack st₁ en).undoStack.dropLast }, none) := by
  unfold undo
  rw [addToUndoStack_getLast]
  dsimp only
  rw [addToUndoStack_doc, hrun]


/-- C1 (amended).  Round-trip law as the code satisfies it: for every batch
that `executeOperations` applies fully successfully and that contains at
least one recognized descriptor, calling `undo()` immediately afterwards
restores every cell's value and formula, every sheet name, and every chart
and pivot table to the exact pre-batch state (`DocEquiv`).  The original
claim's "explicitly-touched format fields" clause fails: a `format`
descriptor's `numberFormat` is applied but never captured or restored (see
the C1 counterexample), so format restoration is excluded here. -/
theorem executeOperations_undo_roundTrip (st : SvcState)
    (ops : List ExcelOperation) (st' : SvcState) (log : List String)
    (hWF : WF st.doc)
    (hrec : 0 < (ops.filter fun op => recognized op.type).length)
    (h : executeOperations st ops = (st', log, .ok ())) :
    ∃ st'' , undo st' = (st'', none) ∧ DocEquiv st''.doc st.doc := by
  unfold executeOperations at h
  rcases haux : executeOperationsAux ops st.doc [] [] with ⟨acc', log', dF, errOpt⟩
  rw [haux] at h
  cases errOpt with
  | some e => dsimp only at h; simp at h
  | none =>
    dsimp only at h
    simp only [Prod.mk.injEq] at h
    obtain ⟨h1, h2, _⟩ := h
    obtain ⟨newInvs, hacc, hWFF, herr, hlen, hrest⟩ :=
      executeOperationsAux_spec ops st.doc [] [] acc' log' dF none hWF haux
    simp only [List.append_nil] at hacc
    have hpos : 0 < acc'.length := by
      rw [hacc, hlen rfl]
      exact hrec
    rw [if_pos hpos] at h1
    subst h1
    obtain ⟨e', hre, he'⟩ := hrest dF (docEquiv_refl dF)
    have hre' : runEntry acc' ({ st with doc := dF } : SvcState).doc =
        (e', none) := by
      rw [hacc]
      exact hre
    exact ⟨_, undo_push { st with doc := dF } acc' hre', he'⟩

/-- C2 (amended).  Partial-failure atomicity as the code satisfies it: when
a step of the batch fails, `executeOperations` rolls the already-applied
steps back (inverses in reverse application order), leaving the document
observationally equal (`DocEquiv`: values, formulas, sheet names, charts,
pivot tables) to the pre-batch state, re-raises exactly the first failing
step's error, and pushes nothing onto the undo history.  The original
claim's "document state for those ranges equals pre-batch state" is too
strong: a `format` step's `numberFormat` write is not rolled back (see the
C2 counterexample). -/
theorem executeOperations_partialFailure (st : SvcState)
    (ops : List ExcelOperation) (st' : SvcState) (log : List String) (e : Err)
    (hWF : WF st.doc)
    (h : executeOperations st ops = (st', log, .error e)) :
    DocEquiv st'.doc st.doc ∧ st'.undoStack = st.undoStack ∧
    st'.redoStack = st.redoStack ∧ firstFailure ops st.doc = some e := by
  unfold executeOperations at h
  rcases haux : executeOperationsAux ops st.doc [] [] with ⟨acc', log', dF, errOpt⟩
  rw [haux] at h
  cases errOpt with
  | none => dsimp only at h; simp at h
  | some e₀ =>
    dsimp only at h
    simp only [Prod.mk.injEq, Except.error.injEq] at h
    obtain ⟨h1, h2, h3⟩ := h
    obtain ⟨newInvs, hacc, hWFF, herr, _, hrest⟩ :=
      executeOperationsAux_spec ops st.doc [] [] acc' log' dF (some e₀) hWF haux
    simp only [List.append_nil] at hacc
    obtain ⟨dR, hre, heq⟩ := hrest dF (docEquiv_refl dF)
    have hrb : rollback acc' dF = (dR, []) := by
      rw [hacc]
      exact rollback_of_runEntry_ok (hacc ▸ hre)
    subst h1
    refine ⟨?_, rfl, rfl, ?_⟩
    · show DocEquiv (rollback acc' dF).1 st.doc
      rw [hrb]
      exact heq
    · rw [← herr, h3]

/-- C3 (amended).  Rollback-error handling as the code implements it
(lines 136-147): when a batch step fails, every collected inverse is
attempted; the caller receives exactly the original error, unchanged — a
secondary rollback failure never replaces it, but it is also never attached
to it: secondary failures are only written to the diagnostic log (the
`console.error` output, the middle component here). -/
theorem executeOperationsAbs_error_propagation {σ ε α : Type}
    (step : α → σ → Except ε (σ × Option (σ → Except ε σ)))
    (ops : List α) (s s₁ : σ) (acc : List (σ → Except ε σ)) (e : ε)
    (h : execBatchAbs step ops s [] = (s₁, acc, some e)) :
    executeOperationsAbs step ops s =
      ((rollbackAbs acc s₁).1, (rollbackAbs acc s₁).2, .error e) := by
  unfold executeOperationsAbs
  rw [h]

/-- C4.  Capacity law of `addToUndoStack`: starting from a history within
capacity, a push never leaves more than `maxUndoSteps` (50) entries, the
pushed entry is always accepted as the newest (top) entry, a push at
capacity silently evicts the oldest entry, and a push below capacity evicts
nothing. -/
theorem addToUndoStack_capacity (st : SvcState) (entry : List UndoOp)
    (h : st.undoStack.length ≤ maxUndoSteps) :
    (addToUndoStack st entry).undoStack.length ≤ maxUndoSteps ∧
    (addToUndoStack st entry).undoStack.getLast? = some entry ∧
    (st.undoStack.length = maxUndoSteps →
      (addToUndoStack st entry).undoStack = st.undoStack.drop 1 ++ [entry]) ∧
    (st.undoStack.length < maxUndoSteps →
      (addToUndoStack st entry).undoStack = st.undoStack ++ [entry]) := by
  refine ⟨?_, addToUndoStack_getLast st entry, ?_, ?_⟩
  · unfold addToUndoStack
    dsimp only
    by_cases hover : (st.undoStack ++ [entry]).length > maxUndoSteps
    · rw [if_pos hover]
      simp only [List.length_drop, List.length_append, List.length_singleton,
        maxUndoSteps] at h hover ⊢
      omega
    · rw [if_neg hover]
      simp only [List.length_append, List.length_singleton,
        maxUndoSteps] at hover ⊢
      omega
  · intro hfull
    unfold addToUndoStack
    dsimp only
    rw [if_pos (by simp [List.length_append, hfull, maxUndoSteps])]
    rw [List.drop_append_of_le_length (by rw [hfull]; simp [maxUndoSteps])]
  · intro hlt
    unfold addToUndoStack
    dsimp only
    rw [if_neg (by simp only [List.length_append, List.length_singleton,
      maxUndoSteps] at hlt ⊢; omega)]

/-- C5.  No-op law: a descriptor whose kind is not among the dispatcher's
recognized tags (the spec's "twelve kinds", fourteen strings since the
row/column insert and delete pairs each share a table row) produces the
`console.warn` diagnostic, leaves the document untouched, contributes no
inverse, and the batch continues with the remaining descriptors from the
same document and the same collected-inverse list. -/
theorem unrecognized_kind_noop (op : ExcelOperation) (d : Doc)
    (rest : List ExcelOperation) (acc : List UndoOp) (log : List String)
    (h : recognized op.type = false) :
    executeOperation op d =
      (.ok (d, none), ["Unknown operation type: " ++ op.type]) ∧
    executeOperationsAux (op :: rest) d acc log =
      executeOperationsAux rest d acc
        (log ++ ["Unknown operation type: " ++ op.type]) := by
  have hop := executeOperation_unrecognized d h
  refine ⟨hop, ?_⟩
  simp only [executeOperationsAux, hop]

/-- C6 (code bug).  The `value` of an `insert_row`/`insert_column`
descriptor is documented as the number of rows/columns to insert, but the
code ignores it: `insertRows`/`insertColumns` accept the `count` argument
and never use it, inserting the target range exactly once.  First two
conjuncts: the handlers are independent of `count`.  Remaining conjuncts
evaluate the failing input — `insert_row` on the one-row range `A3:B3` with
`value 2` moves the content of row 3 down by exactly one row (to row 4,
`.num 42`), not by the two rows the claim requires. -/
theorem insertRows_ignores_count :
    (∀ (target : String) (count : Int) (d : Doc),
      insertRows target count d = insertRows target 1 d) ∧
    (∀ (target : String) (count : Int) (d : Doc),
      insertColumns target count d = insertColumns target 1 d) ∧
    (cellAt c6doc 2 0).value = Val.num 42 ∧
    (cellAt c6after 3 0).value = Val.num 42 ∧
    (cellAt c6after 4 0).value = Val.empty :=
  ⟨fun _ _ _ => rfl, fun _ _ _ => rfl, rfl, rfl, rfl⟩

/-- C7.  Delete restore law: `deleteRows` and `deleteColumns` capture the
target region's values and formulas before deleting, and the inverse they
return first re-inserts space (shifting opposite to the delete) and then
restores the captured values and formulas, so replaying the inverse
recovers the full pre-delete document content (`DocEquiv`), not merely the
row/column count. -/
theorem delete_inverse_restores_content :
    (∀ (target : String) (d d' : Doc) (inv : UndoOp),
      deleteRows target d = .ok (d', inv) →
      ∃ d'', runInv inv d' = .ok d'' ∧ DocEquiv d'' d) ∧
    (∀ (target : String) (d d' : Doc) (inv : UndoOp),
      deleteColumns target d = .ok (d', inv) →
      ∃ d'', runInv inv d' = .ok d'' ∧ DocEquiv d'' d) :=
  ⟨fun _ _ d' _ h => deleteRows_restore h d' (docEquiv_refl d'),
   fun _ _ d' _ h => deleteColumns_restore h d' (docEquiv_refl d')⟩

/-- C8.  Creation inverse law: `createChart` and `createPivotTable` capture
the host-generated object identifier at creation time, and their inverses
delete by that captured identifier; replaying the inverse removes exactly
the created object and restores the document — in particular every other
chart (pivot table) on the sheet is untouched, since `DocEquiv` forces the
chart and pivot lists back to their exact pre-creation value.  Requires the
`WF` freshness invariant (existing identifiers are below the generator). -/
theorem create_inverse_deletes_by_id :
    (∀ (target : String) (options : Options) (d d' : Doc) (inv : UndoOp),
      WF d → createChart target options d = .ok (d', inv) →
      ∃ d'', runInv inv d' = .ok d'' ∧ DocEquiv d'' d) ∧
    (∀ (target : String) (options : Options) (d d' : Doc) (inv : UndoOp),
      WF d → createPivotTable target options d = .ok (d', inv) →
      ∃ d'', runInv inv d' = .ok d'' ∧ DocEquiv d'' d) :=
  ⟨fun _ _ _ d' _ hWF h => createChart_restore hWF h d' (docEquiv_refl d'),
   fun _ _ _ d' _ hWF h => createPivotTable_restore hWF h d' (docEquiv_refl d')⟩

/-- C9.  Frame law for inverse-free batches: when no descriptor of the
batch is recognized (which, in this code, is exactly when no step yields an
inverse — every recognized handler returns one), `executeOperations`
returns with the service state completely unchanged: same document, same
undo history (no `UndoEntry`, not even an empty one, is pushed) and same
redo stack; only the per-descriptor warnings are logged.  A subsequent
`undo()` therefore pops the entry of the most recent earlier successful
batch. -/
theorem executeOperations_no_inverse_no_push (st : SvcState)
    (ops : List ExcelOperation)
    (h : ∀ op ∈ ops, recognized op.type = false) :
    executeOperations st ops =
      (st, ops.map fun op => "Unknown operation type: " ++ op.type, .ok ()) := by
  unfold executeOperations
  rw [executeOperationsAux_all_unrecognized ops st.doc [] [] h]
  dsimp only
  rw [if_neg (by simp)]
  simp

/-- C10.  `isValidRange` is a total Boolean predicate implementing the
pattern `^[A-Z]+[0-9]+(:([A-Z]+[0-9]+)?)?$` over the uppercased input: it
accepts lowercase single cells (`a1`), rectangles (`A1:B2`), and the
dangling-colon form (`A1:`); it rejects whole-column references (`A:B`) and
every sheet-qualified address — any string containing an exclamation mark. -/
theorem isValidRange_spec :
    isValidRange "a1" = true ∧ isValidRange "A1:B2" = true ∧
    isValidRange "A1:" = true ∧ isValidRange "Sheet1!A1" = false ∧
    isValidRange "A:B" = false ∧
    (∀ s : String, '!' ∈ s.data → isValidRange s = false) :=
  ⟨rfl, rfl, rfl, rfl, rfl, fun _ h => isValidRange_excl h⟩

/-- Witness for C1 at the demo workbook and the one-write batch `w1Ops`:
the batch succeeds, `undo` runs without error, and the observable content
is restored. -/
theorem executeOperations_undo_roundTrip_witness :
    ∃ st'' , undo (executeOperations demoSt w1Ops).1 = (st'', none) ∧
      DocEquiv st''.doc demoSt.doc :=
  executeOperations_undo_roundTrip demoSt w1Ops
    (executeOperations demoSt w1Ops).1 (executeOperations demoSt w1Ops).2.1
    (by decide) (by decide) rfl

/-- Counterexample limiting C1 to the `DocEquiv` observables: a batch
consisting of one fully successful `format` descriptor that sets only the
`numberFormat` of `A1` round-trips through `undo` without error, yet the
number format — an explicitly-touched format field — stays at the new value
"0.00" instead of reverting to the pre-batch "General": `formatRange`
captures font, fill and borders but never the number format. -/
theorem roundTrip_numberFormat_counterexample :
    (executeOperations demoSt nfOps).2.2 = Except.ok () ∧
    (cellAt demoSt.doc 0 0).numberFormat = "General" ∧
    (undo (executeOperations demoSt nfOps).1).2 = none ∧
    (cellAt (undo (executeOperations demoSt nfOps).1).1.doc 0 0).numberFormat
      = "0.00" :=
  ⟨rfl, rfl, rfl, rfl⟩

/-- Witness for C2 at the demo workbook and the three-step batch `pfOps`
whose third step addresses the unresolvable target "oops!". -/
theorem executeOperations_partialFailure_witness :
    DocEquiv (executeOperations demoSt pfOps).1.doc demoSt.doc ∧
    (executeOperations demoSt pfOps).1.undoStack = demoSt.undoStack ∧
    (executeOperations demoSt pfOps).1.redoStack = demoSt.redoStack ∧
    firstFailure pfOps demoSt.doc = some (Err.invalidAddress "oops!") :=
  executeOperations_partialFailure demoSt pfOps
    (executeOperations demoSt pfOps).1 (executeOperations demoSt pfOps).2.1
    (Err.invalidAddress "oops!") (by decide) rfl

/-- Counterexample limiting C2 to the `DocEquiv` observables: in the failed
batch `pfOps` the value written by step 2 is rolled back (`A1` ends at its
pre-batch 7, not 5), but step 1's number-format change survives the
rollback — `A1` ends at "0.00" instead of the pre-batch "General" — because
`formatRange`'s inverse does not cover the number format. -/
theorem partialFailure_numberFormat_counterexample :
    (executeOperations demoSt pfOps).2.2
      = Except.error (Err.invalidAddress "oops!") ∧
    (cellAt demoSt.doc 0 0).value = Val.num 7 ∧
    (cellAt (executeOperations demoSt pfOps).1.doc 0 0).value = Val.num 7 ∧
    (cellAt demoSt.doc 0 0).numberFormat = "General" ∧
    (cellAt (executeOperations demoSt pfOps).1.doc 0 0).numberFormat
      = "0.00" :=
  ⟨rfl, rfl, rfl, rfl, rfl⟩

/-- Witness for C3 at `stepA` on the two-step batch `[1, 2]`: step 2 fails,
the collected inverse `abs3Acc` is attempted, and the surfaced error is the
original one. -/
theorem executeOperationsAbs_error_propagation_witness :
    executeOperationsAbs stepA [1, 2] 0 =
      ((rollbackAbs abs3Acc 1).1, (rollbackAbs abs3Acc 1).2,
        .error "original error") :=
  executeOperationsAbs_error_propagation stepA [1, 2] 0 1 abs3Acc
    "original error" rfl

/-- Counterexample to C3's "captured and attached to the surfaced error":
two runs that differ only in their secondary rollback failure ("rollback
failed: A" vs "rollback failed: B") surface byte-identical errors — the
plain original error — while the differing secondary failures appear only
in the diagnostic log.  No value carrying "the original error plus every
secondary rollback error" reaches the caller. -/
theorem rollback_error_not_attached_counterexample :
    (executeOperationsAbs stepA [1, 2] 0).2.2 = .error "original error" ∧
    (executeOperationsAbs stepB [1, 2] 0).2.2 = .error "original error" ∧
    (executeOperationsAbs stepA [1, 2] 0).2.1 = ["rollback failed: A"] ∧
    (executeOperationsAbs stepB [1, 2] 0).2.1 = ["rollback failed: B"] :=
  ⟨rfl, rfl, rfl, rfl⟩

/-- Witness for C4 at a history holding exactly 50 entries: the push stays
within capacity, the new entry becomes the newest, and the oldest entry is
evicted. -/
theorem addToUndoStack_capacity_witness :
    (addToUndoStack c4St c4Entry).undoStack.length ≤ maxUndoSteps ∧
    (addToUndoStack c4St c4Entry).undoStack.getLast? = some c4Entry ∧
    (c4St.undoStack.length = maxUndoSteps →
      (addToUndoStack c4St c4Entry).undoStack
        = c4St.undoStack.drop 1 ++ [c4Entry]) ∧
    (c4St.undoStack.length < maxUndoSteps →
      (addToUndoStack c4St c4Entry).undoStack
        = c4St.undoStack ++ [c4Entry]) :=
  addToUndoStack_capacity c4St c4Entry (by decide)

/-- Witness for C5 at the unrecognized descriptor `op5` (`merge_cells`)
followed by a recognized one: the warning is logged, the document and
inverse list pass through unchanged, and the loop continues with `rest5`. -/
theorem unrecognized_kind_noop_witness :
    executeOperation op5 demoDoc =
      (.ok (demoDoc, none), ["Unknown operation type: " ++ op5.type]) ∧
    executeOperationsAux (op5 :: rest5) demoDoc [] [] =
      executeOperationsAux rest5 demoDoc []
        ([] ++ ["Unknown operation type: " ++ op5.type]) :=
  unrecognized_kind_noop op5 demoDoc rest5 [] [] (by decide)

/-- Witness for C7 at `deleteRows` on `A1:B2` of the demo workbook: the
returned inverse replays successfully and restores the deleted content. -/
theorem delete_inverse_restores_content_witness :
    ∃ d'' , runInv c7inv c7doc' = .ok d'' ∧ DocEquiv d'' demoDoc :=
  delete_inverse_restores_content.1 "A1:B2" demoDoc c7doc' c7inv rfl

/-- Witness for C8 at `createChart` on `A1:B2` of the demo workbook: the
inverse deletes the chart by its captured id and restores the document. -/
theorem create_inverse_deletes_by_id_witness :
    ∃ d'' , runInv c8inv c8doc' = .ok d'' ∧ DocEquiv d'' demoDoc :=
  create_inverse_deletes_by_id.1 "A1:B2" {} demoDoc c8doc' c8inv
    (by decide) rfl

/-- Witness for C9 at a two-descriptor batch of unrecognized kinds: the
service state is returned unchanged with only the two warnings logged. -/
theorem executeOperations_no_inverse_no_push_witness :
    executeOperations demoSt ops9 =
      (demoSt, ops9.map fun op => "Unknown operation type: " ++ op.type,
        .ok ()) :=
  executeOperations_no_inverse_no_push demoSt ops9 (by decide)

/-- Witness for C10's universally quantified conjunct at the
sheet-qualified address "Sheet1!A1". -/
theorem isValidRange_spec_witness :
    ('!' ∈ "Sheet1!A1".data) ∧ isValidRange "Sheet1!A1" = false :=
  ⟨by decide, isValidRange_spec.2.2.2.2.2 "Sheet1!A1" (by decide)⟩
